import Mathlib

/-!
Shallow embedding of the cocktail API (src/main.py): the SQLAlchemy data
model (tables as lists of rows with auto-increment id counters), the
create/read handlers, and the pydantic request validation, together with
proofs of the behavioural claims about them.
-/

namespace CocktailApi

/-! ## Row types (the SQLAlchemy models, lines 26-82 of src/main.py) -/

/-- A row of the cocktails table (class Cocktail). -/
structure Cocktail where
  id : Nat
  title : String
  author : Option String
  description : Option String
  difficulty : Option String
  glass_type : Option String
  cover_image : Option String
deriving DecidableEq, Repr

/-- A row of the ingredients table (class Ingredient); name is unique. -/
structure Ingredient where
  id : Nat
  name : String
deriving DecidableEq, Repr

/-- A row of the cocktail_ingredients link table (class CocktailIngredient). -/
structure CocktailIngredient where
  id : Nat
  cocktail_id : Nat
  ingredient_id : Nat
  quantity : Option String
  unit : Option String
  notes : Option String
deriving DecidableEq, Repr

/-- A row of the instructions table (class Instruction). -/
structure Instruction where
  id : Nat
  cocktail_id : Nat
  step_number : Nat
  instruction_text : String
deriving DecidableEq, Repr

/-- A row of the tags table (class Tag). The source column is named type
(with values "tag" or "flavor_tag"); that word is reserved in Lean, so the
field is called ty here. -/
structure Tag where
  id : Nat
  name : String
  ty : String
deriving DecidableEq, Repr

/-- A row of the garnishes table (class Garnish); name is unique. -/
structure Garnish where
  id : Nat
  name : String
deriving DecidableEq, Repr

/-- A row of the cocktail_tags association table. -/
structure CocktailTagLink where
  cocktail_id : Nat
  tag_id : Nat
deriving DecidableEq, Repr

/-- A row of the cocktail_garnishes association table. -/
structure CocktailGarnishLink where
  cocktail_id : Nat
  garnish_id : Nat
deriving DecidableEq, Repr

/-- The whole SQLite database: each table as a list of rows in insertion
order (SQLite returns rows in rowid order for the plain SELECTs the app
issues), plus the next auto-increment primary key of each entity table. -/
structure DB where
  cocktails : List Cocktail
  ingredients : List Ingredient
  cocktail_ingredients : List CocktailIngredient
  instructions : List Instruction
  tags : List Tag
  garnishes : List Garnish
  cocktail_tags : List CocktailTagLink
  cocktail_garnishes : List CocktailGarnishLink
  next_cocktail_id : Nat
  next_ingredient_id : Nat
  next_ci_id : Nat
  next_instruction_id : Nat
  next_tag_id : Nat
  next_garnish_id : Nat
deriving DecidableEq, Repr

/-- A freshly created database (SQLite auto-increment starts at 1). -/
def emptyDB : DB :=
  { cocktails := []
    ingredients := []
    cocktail_ingredients := []
    instructions := []
    tags := []
    garnishes := []
    cocktail_tags := []
    cocktail_garnishes := []
    next_cocktail_id := 1
    next_ingredient_id := 1
    next_ci_id := 1
    next_instruction_id := 1
    next_tag_id := 1
    next_garnish_id := 1 }

/-! ## Request/response models (the pydantic classes, lines 85-137) -/

/-- Pydantic model IngredientCreate. -/
structure IngredientCreate where
  name : String
  quantity : Option String
  unit : Option String
  notes : Option String
deriving DecidableEq, Repr

/-- Pydantic model MetadataCreate. -/
structure MetadataCreate where
  difficulty : Option String
  glass_type : Option String
  garnish : Option (List String)
  tags : Option (List String)
  flavor_tags : Option (List String)
  cover_image : Option String
deriving DecidableEq, Repr

/-- Pydantic model CocktailCreate. -/
structure CocktailCreate where
  title : String
  author : Option String
  description : Option String
  ingredients : List IngredientCreate
  instructions : List String
  metadata : Option MetadataCreate
deriving DecidableEq, Repr

/-- One entry of the serialized ingredients list. -/
structure IngredientRead where
  name : String
  quantity : Option String
  unit : Option String
  notes : Option String
deriving DecidableEq, Repr

/-- The serialized metadata object built by serialize_cocktail. -/
structure MetadataRead where
  difficulty : Option String
  glass_type : Option String
  garnish : List String
  tags : List String
  flavor_tags : List String
  cover_image : Option String
deriving DecidableEq, Repr

/-- The serialized cocktail document built by serialize_cocktail. -/
structure CocktailRead where
  id : Nat
  title : String
  author : Option String
  description : Option String
  ingredients : List IngredientRead
  instructions : List String
  metadata : MetadataRead
deriving DecidableEq, Repr

/-! ## Serialization (serialize_cocktail, lines 151-174) -/

/-- Resolve an ingredient_id through the relationship ci.ingredient.name.
In every state the app produces the id resolves; the empty-string default
is never reached in any theorem below. -/
def ingredientNameOf (rows : List Ingredient) (iid : Nat) : String :=
  ((rows.find? (fun r => r.id == iid)).map (fun r => r.name)).getD ""

/-- The dictionary built for one CocktailIngredient row (lines 158-163). -/
def ciRead (rows : List Ingredient) (ci : CocktailIngredient) : IngredientRead :=
  { name := ingredientNameOf rows ci.ingredient_id
    quantity := ci.quantity
    unit := ci.unit
    notes := ci.notes }

/-- The Tag rows reachable from a cocktail through the cocktail_tags
association (the cocktail.tags relationship). -/
def linkedTags (links : List CocktailTagLink) (table : List Tag) (cid : Nat) : List Tag :=
  (links.filter (fun l => l.cocktail_id == cid)).filterMap
    (fun l => table.find? (fun t => t.id == l.tag_id))

/-- The Garnish rows reachable from a cocktail through the
cocktail_garnishes association (the cocktail.garnishes relationship). -/
def linkedGarnishes (links : List CocktailGarnishLink) (table : List Garnish) (cid : Nat) :
    List Garnish :=
  (links.filter (fun l => l.cocktail_id == cid)).filterMap
    (fun l => table.find? (fun g => g.id == l.garnish_id))

/-- serialize_cocktail (lines 151-174): project one Cocktail row and its
linked rows into the client-facing document. Python sorted is a stable
sort by key, modelled by List.mergeSort on step_number. -/
def serialize_cocktail (db : DB) (c : Cocktail) : CocktailRead :=
  { id := c.id
    title := c.title
    author := c.author
    description := c.description
    ingredients :=
      (db.cocktail_ingredients.filter (fun ci => ci.cocktail_id == c.id)).map
        (ciRead db.ingredients)
    instructions :=
      ((db.instructions.filter (fun i => i.cocktail_id == c.id)).mergeSort
          (fun a b => decide (a.step_number ≤ b.step_number))).map
        (fun i => i.instruction_text)
    metadata :=
      { difficulty := c.difficulty
        glass_type := c.glass_type
        garnish := (linkedGarnishes db.cocktail_garnishes db.garnishes c.id).map
          (fun g => g.name)
        tags := ((linkedTags db.cocktail_tags db.tags c.id).filter
          (fun t => t.ty == "tag")).map (fun t => t.name)
        flavor_tags := ((linkedTags db.cocktail_tags db.tags c.id).filter
          (fun t => t.ty == "flavor_tag")).map (fun t => t.name)
        cover_image := c.cover_image } }

/-! ## create_cocktail (lines 178-254) -/

/-- Line 184: cocktail.metadata.difficulty if cocktail.metadata else None. -/
def metaDifficulty (c : CocktailCreate) : Option String :=
  match c.metadata with | some m => m.difficulty | none => none

/-- Line 185: cocktail.metadata.glass_type if cocktail.metadata else None. -/
def metaGlassType (c : CocktailCreate) : Option String :=
  match c.metadata with | some m => m.glass_type | none => none

/-- Line 186: cocktail.metadata.cover_image if cocktail.metadata else None. -/
def metaCoverImage (c : CocktailCreate) : Option String :=
  match c.metadata with | some m => m.cover_image | none => none

/-- Lines 180-190: build the Cocktail row from the input and commit it.
SQLAlchemy assigns the next auto-increment id. -/
def insertCocktailRow (db : DB) (c : CocktailCreate) : DB × Cocktail :=
  let row : Cocktail :=
    { id := db.next_cocktail_id
      title := c.title
      author := c.author
      description := c.description
      difficulty := metaDifficulty c
      glass_type := metaGlassType c
      cover_image := metaCoverImage c }
  ({ db with
      cocktails := db.cocktails ++ [row]
      next_cocktail_id := db.next_cocktail_id + 1 }, row)

/-- The database state other readers observe right after the first commit
of create_cocktail (line 189): only the new Cocktail row is stored; its
ingredients, instructions and vocabulary links are not yet written. -/
def create_cocktail_first_commit (db : DB) (c : CocktailCreate) : DB :=
  (insertCocktailRow db c).1

/-- Lines 194-200: check-then-insert lookup of an Ingredient by name. -/
def findOrCreateIngredient (db : DB) (name : String) : DB × Ingredient :=
  match db.ingredients.find? (fun r => r.name == name) with
  | some r => (db, r)
  | none =>
    let r : Ingredient := { id := db.next_ingredient_id, name := name }
    ({ db with
        ingredients := db.ingredients ++ [r]
        next_ingredient_id := db.next_ingredient_id + 1 }, r)

/-- Lines 194-209: the body of the ingredients loop — resolve the line's
Ingredient and add a CocktailIngredient row carrying the line's
attributes. -/
def addIngredientLine (db : DB) (cid : Nat) (ing : IngredientCreate) : DB :=
  let p := findOrCreateIngredient db ing.name
  { p.1 with
      cocktail_ingredients := p.1.cocktail_ingredients ++
        [{ id := p.1.next_ci_id
           cocktail_id := cid
           ingredient_id := p.2.id
           quantity := ing.quantity
           unit := ing.unit
           notes := ing.notes }]
      next_ci_id := p.1.next_ci_id + 1 }

/-- Lines 193-209: the ingredients loop. -/
def addIngredientLines (db : DB) (cid : Nat) : List IngredientCreate → DB
  | [] => db
  | ing :: rest => addIngredientLines (addIngredientLine db cid ing) cid rest

/-- Lines 212-218: the instructions loop — step_number is the 0-based
enumeration index plus one. -/
def addInstructions (db : DB) (cid : Nat) (idx : Nat) : List String → DB
  | [] => db
  | text :: rest =>
    let row : Instruction :=
      { id := db.next_instruction_id
        cocktail_id := cid
        step_number := idx + 1
        instruction_text := text }
    addInstructions
      { db with
          instructions := db.instructions ++ [row]
          next_instruction_id := db.next_instruction_id + 1 } cid (idx + 1) rest

/-- Lines 223-228: check-then-insert lookup of a Garnish by name. -/
def findOrCreateGarnish (db : DB) (name : String) : DB × Garnish :=
  match db.garnishes.find? (fun g => g.name == name) with
  | some g => (db, g)
  | none =>
    let g : Garnish := { id := db.next_garnish_id, name := name }
    ({ db with
        garnishes := db.garnishes ++ [g]
        next_garnish_id := db.next_garnish_id + 1 }, g)

/-- Lines 223-229: the body of the garnish loop — resolve the name and
append a link row (new_cocktail.garnishes.append), one per occurrence. -/
def addGarnishLink (db : DB) (cid : Nat) (name : String) : DB :=
  let p := findOrCreateGarnish db name
  { p.1 with
      cocktail_garnishes :=
        p.1.cocktail_garnishes ++ [{ cocktail_id := cid, garnish_id := p.2.id }] }

/-- Lines 221-229: the garnish loop. -/
def addGarnishLinks (db : DB) (cid : Nat) : List String → DB
  | [] => db
  | name :: rest => addGarnishLinks (addGarnishLink db cid name) cid rest

/-- Lines 234-239 and 244-249: check-then-insert lookup of a Tag by name
and type. -/
def findOrCreateTag (db : DB) (name : String) (ty : String) : DB × Tag :=
  match db.tags.find? (fun t => t.name == name && t.ty == ty) with
  | some t => (db, t)
  | none =>
    let t : Tag := { id := db.next_tag_id, name := name, ty := ty }
    ({ db with
        tags := db.tags ++ [t]
        next_tag_id := db.next_tag_id + 1 }, t)

/-- Lines 234-240 and 244-250: the body of the tag loops — resolve the
name and append a link row (new_cocktail.tags.append), one per
occurrence. -/
def addTagLink (db : DB) (cid : Nat) (ty : String) (name : String) : DB :=
  let p := findOrCreateTag db name ty
  { p.1 with
      cocktail_tags :=
        p.1.cocktail_tags ++ [{ cocktail_id := cid, tag_id := p.2.id }] }

/-- Lines 232-250: the tag loops (ty is "tag" for metadata.tags and
"flavor_tag" for metadata.flavor_tags). -/
def addTagLinks (db : DB) (cid : Nat) (ty : String) : List String → DB
  | [] => db
  | name :: rest => addTagLinks (addTagLink db cid ty name) cid ty rest

/-- The garnish list iterated at line 222 (empty when metadata or the list
is absent; Python treats an empty list as falsy, which iterates nothing,
the same outcome). -/
def metaGarnish (c : CocktailCreate) : List String :=
  match c.metadata with
  | some m => m.garnish.getD []
  | none => []

/-- The tag list iterated at line 233. -/
def metaTags (c : CocktailCreate) : List String :=
  match c.metadata with
  | some m => m.tags.getD []
  | none => []

/-- The flavor-tag list iterated at line 243. -/
def metaFlavorTags (c : CocktailCreate) : List String :=
  match c.metadata with
  | some m => m.flavor_tags.getD []
  | none => []

/-- create_cocktail (lines 178-254): insert the Cocktail row (first
commit), then ingredients, instructions, garnish links, tag links and
flavor-tag links, commit, and serialize the stored recipe. Returns the
final database and the response document. -/
def create_cocktail (db : DB) (c : CocktailCreate) : DB × CocktailRead :=
  let p := insertCocktailRow db c
  let cid := p.2.id
  let db2 := addIngredientLines p.1 cid c.ingredients
  let db3 := addInstructions db2 cid 0 c.instructions
  let db4 := addGarnishLinks db3 cid (metaGarnish c)
  let db5 := addTagLinks db4 cid "tag" (metaTags c)
  let db6 := addTagLinks db5 cid "flavor_tag" (metaFlavorTags c)
  (db6, serialize_cocktail db6 p.2)

/-! ## Read endpoints (lines 257-268) -/

/-- The only domain-level error the handlers raise (HTTPException 404). -/
inductive ApiError where
  | notFound : ApiError
deriving DecidableEq, Repr

/-- get_cocktail (lines 263-268): first row with the requested id, 404
when none exists. -/
def get_cocktail (db : DB) (cocktail_id : Nat) : Except ApiError CocktailRead :=
  match db.cocktails.find? (fun c => c.id == cocktail_id) with
  | none => Except.error ApiError.notFound
  | some c => Except.ok (serialize_cocktail db c)

/-- get_cocktails (lines 257-260): serialize every stored cocktail. -/
def get_cocktails (db : DB) : List CocktailRead :=
  db.cocktails.map (serialize_cocktail db)

/-! ## Request validation (the pydantic schema, lines 85-108)

FastAPI validates the request body against CocktailCreate before the
handler runs: fields not typed Optional are required. A raw document may
omit them; validation rejects such documents before any database access. -/

/-- A raw ingredient object as received on the wire; none models an
absent field. -/
structure RawIngredientCreate where
  name : Option String
  quantity : Option String
  unit : Option String
  notes : Option String
deriving DecidableEq, Repr

/-- A raw request body as received on the wire; none on title,
ingredients or instructions models an absent required field. -/
structure RawCocktailCreate where
  title : Option String
  author : Option String
  description : Option String
  ingredients : Option (List RawIngredientCreate)
  instructions : Option (List String)
  metadata : Option MetadataCreate
deriving DecidableEq, Repr

/-- Pydantic validation of one ingredient object: name is required. -/
def validateIngredient (r : RawIngredientCreate) : Except String IngredientCreate :=
  match r.name with
  | none => Except.error "field required: name"
  | some n =>
    Except.ok { name := n, quantity := r.quantity, unit := r.unit, notes := r.notes }

/-- Pydantic validation of the request body against CocktailCreate:
title, ingredients and instructions are required; any present string
(including the empty string) is accepted as a str. -/
def validateCocktailCreate (r : RawCocktailCreate) : Except String CocktailCreate :=
  match r.title with
  | none => Except.error "field required: title"
  | some t =>
    match r.ingredients with
    | none => Except.error "field required: ingredients"
    | some rawIngs =>
      match r.instructions with
      | none => Except.error "field required: instructions"
      | some instrs =>
        match rawIngs.mapM validateIngredient with
        | Except.error e => Except.error e
        | Except.ok ings =>
          Except.ok
            { title := t
              author := r.author
              description := r.description
              ingredients := ings
              instructions := instrs
              metadata := r.metadata }

/-- The POST /cocktails pipeline: schema validation, then the handler.
A validation error is returned before any database access. -/
def create_endpoint (db : DB) (r : RawCocktailCreate) : Except String (DB × CocktailRead) :=
  match validateCocktailCreate r with
  | Except.error e => Except.error e
  | Except.ok c => Except.ok (create_cocktail db c)

/-! ## Generic list lemmas -/

/-- In a list whose keys are pairwise distinct, searching for the key of a
member returns that member. -/
theorem find?_key_of_nodup {α κ : Type} [BEq κ] [LawfulBEq κ] (k : α → κ) :
    ∀ (l : List α) (r : α), (l.map k).Nodup → r ∈ l →
      l.find? (fun x => k x == k r) = some r := by
  intro l
  induction l with
  | nil => simp
  | cons a t ih =>
    intro r hnd hmem
    simp only [List.map_cons, List.nodup_cons, List.mem_map] at hnd
    rcases List.mem_cons.mp hmem with h | h
    · subst h
      exact List.find?_cons_of_pos _ (by simp)
    · have hfa : (k a == k r) = false := by
        cases hb : (k a == k r) with
        | false => rfl
        | true => exact absurd ⟨r, h, (beq_iff_eq.mp hb).symm⟩ hnd.1
      simp only [List.find?_cons, hfa]
      exact ih r hnd.2 h

/-- Appending rows to a table does not change a search that already
succeeds on the original table. -/
theorem find?_append_of_isSome {α : Type} {l : List α} (l' : List α) {p : α → Bool}
    (h : (l.find? p).isSome) : (l ++ l').find? p = l.find? p := by
  rw [List.find?_append]
  cases hf : l.find? p with
  | none => rw [hf] at h; simp at h
  | some r => simp

/-- Appending rows to a table does not change the resolution of link rows
that already resolve on the original table. -/
theorem filterMap_find?_append {α β : Type} (f : β → α → Bool) (tail : List α) :
    ∀ (rows : List β) (tbl : List α), (∀ l ∈ rows, (tbl.find? (f l)).isSome) →
      rows.filterMap (fun l => (tbl ++ tail).find? (f l))
        = rows.filterMap (fun l => tbl.find? (f l)) := by
  intro rows
  induction rows with
  | nil => simp
  | cons a t ih =>
    intro tbl h
    simp only [List.filterMap_cons]
    rw [find?_append_of_isSome tail (h a (List.mem_cons_self a t)),
      ih tbl (fun l hl => h l (List.mem_cons_of_mem a hl))]

/-- A filter that drops every element of a list yields the empty list. -/
theorem filter_eq_nil_of_none {α : Type} {l : List α} {p : α → Bool}
    (h : ∀ x ∈ l, ¬p x) : l.filter p = [] :=
  List.filter_eq_nil_iff.mpr h

/-! ## Table invariants -/

/-- Invariant of the ingredients table: distinct ids, distinct names
(the unique constraint on Ingredient.name), ids below the auto-increment
counter. -/
def IngTableInv (db : DB) : Prop :=
  (db.ingredients.map (fun r => r.id)).Nodup ∧
  (db.ingredients.map (fun r => r.name)).Nodup ∧
  ∀ r ∈ db.ingredients, r.id < db.next_ingredient_id

/-- Invariant of the garnishes table: distinct ids, distinct names, ids
below the auto-increment counter. -/
def GarnishTableInv (db : DB) : Prop :=
  (db.garnishes.map (fun g => g.id)).Nodup ∧
  (db.garnishes.map (fun g => g.name)).Nodup ∧
  ∀ g ∈ db.garnishes, g.id < db.next_garnish_id

/-- Invariant of the tags table: distinct ids, distinct (name, type)
keys, ids below the auto-increment counter. -/
def TagTableInv (db : DB) : Prop :=
  (db.tags.map (fun t => t.id)).Nodup ∧
  (db.tags.map (fun t => (t.name, t.ty))).Nodup ∧
  ∀ t ∈ db.tags, t.id < db.next_tag_id

/-! ## findOrCreateIngredient lemmas -/

/-- findOrCreateIngredient touches only the ingredients table and its
counter. -/
theorem findOrCreateIngredient_frame (db : DB) (name : String) :
    (findOrCreateIngredient db name).1.cocktails = db.cocktails ∧
    (findOrCreateIngredient db name).1.cocktail_ingredients = db.cocktail_ingredients ∧
    (findOrCreateIngredient db name).1.instructions = db.instructions ∧
    (findOrCreateIngredient db name).1.tags = db.tags ∧
    (findOrCreateIngredient db name).1.garnishes = db.garnishes ∧
    (findOrCreateIngredient db name).1.cocktail_tags = db.cocktail_tags ∧
    (findOrCreateIngredient db name).1.cocktail_garnishes = db.cocktail_garnishes ∧
    (findOrCreateIngredient db name).1.next_cocktail_id = db.next_cocktail_id ∧
    (findOrCreateIngredient db name).1.next_ci_id = db.next_ci_id ∧
    (findOrCreateIngredient db name).1.next_instruction_id = db.next_instruction_id ∧
    (findOrCreateIngredient db name).1.next_tag_id = db.next_tag_id ∧
    (findOrCreateIngredient db name).1.next_garnish_id = db.next_garnish_id := by
  unfold findOrCreateIngredient
  cases db.ingredients.find? (fun r => r.name == name) <;> simp

/-- Core facts about findOrCreateIngredient: the invariant is preserved,
the table only grows, the returned entity carries the requested name, and
it is the row found when resolving its id in the updated table. -/
theorem findOrCreateIngredient_spec (db : DB) (name : String) (h : IngTableInv db) :
    IngTableInv (findOrCreateIngredient db name).1 ∧
    db.next_ingredient_id ≤ (findOrCreateIngredient db name).1.next_ingredient_id ∧
    (∃ tail, (findOrCreateIngredient db name).1.ingredients = db.ingredients ++ tail) ∧
    (findOrCreateIngredient db name).2.name = name ∧
    (findOrCreateIngredient db name).1.ingredients.find?
        (fun x => x.id == (findOrCreateIngredient db name).2.id)
      = some (findOrCreateIngredient db name).2 := by
  obtain ⟨hid, hname, hlt⟩ := h
  cases hf : db.ingredients.find? (fun r => r.name == name) with
  | some r =>
    have hr : r ∈ db.ingredients := List.mem_of_find?_eq_some hf
    have hrname : r.name = name := by simpa using List.find?_some hf
    have hres : db.ingredients.find? (fun x => x.id == r.id) = some r :=
      find?_key_of_nodup (fun x => x.id) db.ingredients r hid hr
    simp only [findOrCreateIngredient, hf]
    exact ⟨⟨hid, hname, hlt⟩, Nat.le_refl _, ⟨[], by simp⟩, hrname, hres⟩
  | none =>
    have hnotin : ∀ r ∈ db.ingredients, ¬r.name = name := by
      intro r hr heq
      have := List.find?_eq_none.mp hf r hr
      simp [heq] at this
    simp only [findOrCreateIngredient, hf]
    refine ⟨⟨?_, ?_, ?_⟩, Nat.le_succ _, ⟨[⟨db.next_ingredient_id, name⟩], rfl⟩, by trivial, ?_⟩
    · rw [List.map_append, List.nodup_append]
      refine ⟨hid, by simp, ?_⟩
      intro x hx
      simp only [List.map_cons, List.map_nil, List.mem_cons, List.not_mem_nil, or_false]
      rcases List.mem_map.mp hx with ⟨r, hr, hrx⟩
      intro heq
      exact absurd (hrx ▸ heq ▸ hlt r hr) (Nat.lt_irrefl _)
    · rw [List.map_append, List.nodup_append]
      refine ⟨hname, by simp, ?_⟩
      intro x hx
      simp only [List.map_cons, List.map_nil, List.mem_cons, List.not_mem_nil, or_false]
      rcases List.mem_map.mp hx with ⟨r, hr, hrx⟩
      intro heq
      exact hnotin r hr (hrx ▸ heq)
    · intro r hr
      rcases List.mem_append.mp hr with h | h
      · exact Nat.lt_succ_of_lt (hlt r h)
      · simp only [List.mem_cons, List.not_mem_nil, or_false] at h
        subst h
        exact Nat.lt_succ_self _
    · rw [List.find?_append]
      have hpre : db.ingredients.find? (fun x => x.id == db.next_ingredient_id) = none := by
        rw [List.find?_eq_none]
        intro r hr hbeq
        exact absurd ((beq_iff_eq.mp hbeq) ▸ hlt r hr) (Nat.lt_irrefl _)
      rw [hpre]
      simp

/-- Calling findOrCreateIngredient again with the same name returns the
same entity and leaves the database unchanged. -/
theorem findOrCreateIngredient_idem (db : DB) (name : String) (h : IngTableInv db) :
    findOrCreateIngredient (findOrCreateIngredient db name).1 name
      = ((findOrCreateIngredient db name).1, (findOrCreateIngredient db name).2) := by
  obtain ⟨hid, hname, hlt⟩ := h
  cases hf : db.ingredients.find? (fun r => r.name == name) with
  | some r =>
    simp only [findOrCreateIngredient, hf]
  | none =>
    simp only [findOrCreateIngredient, hf]
    rw [List.find?_append, hf]
    simp [findOrCreateIngredient]

/-! ## findOrCreateGarnish lemmas -/

/-- findOrCreateGarnish touches only the garnishes table and its
counter. -/
theorem findOrCreateGarnish_frame (db : DB) (name : String) :
    (findOrCreateGarnish db name).1.cocktails = db.cocktails ∧
    (findOrCreateGarnish db name).1.ingredients = db.ingredients ∧
    (findOrCreateGarnish db name).1.cocktail_ingredients = db.cocktail_ingredients ∧
    (findOrCreateGarnish db name).1.instructions = db.instructions ∧
    (findOrCreateGarnish db name).1.tags = db.tags ∧
    (findOrCreateGarnish db name).1.cocktail_tags = db.cocktail_tags ∧
    (findOrCreateGarnish db name).1.cocktail_garnishes = db.cocktail_garnishes ∧
    (findOrCreateGarnish db name).1.next_cocktail_id = db.next_cocktail_id ∧
    (findOrCreateGarnish db name).1.next_ingredient_id = db.next_ingredient_id ∧
    (findOrCreateGarnish db name).1.next_ci_id = db.next_ci_id ∧
    (findOrCreateGarnish db name).1.next_instruction_id = db.next_instruction_id ∧
    (findOrCreateGarnish db name).1.next_tag_id = db.next_tag_id := by
  unfold findOrCreateGarnish
  cases db.garnishes.find? (fun g => g.name == name) <;> simp

/-- Core facts about findOrCreateGarnish: invariant preserved, table only
grows, the returned entity carries the requested name and resolves to
itself by id in the updated table. -/
theorem findOrCreateGarnish_spec (db : DB) (name : String) (h : GarnishTableInv db) :
    GarnishTableInv (findOrCreateGarnish db name).1 ∧
    db.next_garnish_id ≤ (findOrCreateGarnish db name).1.next_garnish_id ∧
    (∃ tail, (findOrCreateGarnish db name).1.garnishes = db.garnishes ++ tail) ∧
    (findOrCreateGarnish db name).2.name = name ∧
    (findOrCreateGarnish db name).1.garnishes.find?
        (fun x => x.id == (findOrCreateGarnish db name).2.id)
      = some (findOrCreateGarnish db name).2 := by
  obtain ⟨hid, hname, hlt⟩ := h
  cases hf : db.garnishes.find? (fun g => g.name == name) with
  | some g =>
    have hg : g ∈ db.garnishes := List.mem_of_find?_eq_some hf
    have hgname : g.name = name := by simpa using List.find?_some hf
    have hres : db.garnishes.find? (fun x => x.id == g.id) = some g :=
      find?_key_of_nodup (fun x => x.id) db.garnishes g hid hg
    simp only [findOrCreateGarnish, hf]
    exact ⟨⟨hid, hname, hlt⟩, Nat.le_refl _, ⟨[], by simp⟩, hgname, hres⟩
  | none =>
    have hnotin : ∀ g ∈ db.garnishes, ¬g.name = name := by
      intro g hg heq
      have := List.find?_eq_none.mp hf g hg
      simp [heq] at this
    simp only [findOrCreateGarnish, hf]
    refine ⟨⟨?_, ?_, ?_⟩, Nat.le_succ _, ⟨[⟨db.next_garnish_id, name⟩], rfl⟩, by trivial, ?_⟩
    · rw [List.map_append, List.nodup_append]
      refine ⟨hid, by simp, ?_⟩
      intro x hx
      simp only [List.map_cons, List.map_nil, List.mem_cons, List.not_mem_nil, or_false]
      rcases List.mem_map.mp hx with ⟨g, hg, hgx⟩
      intro heq
      exact absurd (hgx ▸ heq ▸ hlt g hg) (Nat.lt_irrefl _)
    · rw [List.map_append, List.nodup_append]
      refine ⟨hname, by simp, ?_⟩
      intro x hx
      simp only [List.map_cons, List.map_nil, List.mem_cons, List.not_mem_nil, or_false]
      rcases List.mem_map.mp hx with ⟨g, hg, hgx⟩
      intro heq
      exact hnotin g hg (hgx ▸ heq)
    · intro g hg
      rcases List.mem_append.mp hg with h | h
      · exact Nat.lt_succ_of_lt (hlt g h)
      · simp only [List.mem_cons, List.not_mem_nil, or_false] at h
        subst h
        exact Nat.lt_succ_self _
    · rw [List.find?_append]
      have hpre : db.garnishes.find? (fun x => x.id == db.next_garnish_id) = none := by
        rw [List.find?_eq_none]
        intro g hg hbeq
        exact absurd ((beq_iff_eq.mp hbeq) ▸ hlt g hg) (Nat.lt_irrefl _)
      rw [hpre]
      simp

/-- Calling findOrCreateGarnish again with the same name returns the same
entity and leaves the database unchanged. -/
theorem findOrCreateGarnish_idem (db : DB) (name : String) (h : GarnishTableInv db) :
    findOrCreateGarnish (findOrCreateGarnish db name).1 name
      = ((findOrCreateGarnish db name).1, (findOrCreateGarnish db name).2) := by
  obtain ⟨hid, hname, hlt⟩ := h
  cases hf : db.garnishes.find? (fun g => g.name == name) with
  | some g =>
    simp only [findOrCreateGarnish, hf]
  | none =>
    simp only [findOrCreateGarnish, hf]
    rw [List.find?_append, hf]
    simp [findOrCreateGarnish]

/-! ## findOrCreateTag lemmas -/

/-- findOrCreateTag touches only the tags table and its counter. -/
theorem findOrCreateTag_frame (db : DB) (name ty : String) :
    (findOrCreateTag db name ty).1.cocktails = db.cocktails ∧
    (findOrCreateTag db name ty).1.ingredients = db.ingredients ∧
    (findOrCreateTag db name ty).1.cocktail_ingredients = db.cocktail_ingredients ∧
    (findOrCreateTag db name ty).1.instructions = db.instructions ∧
    (findOrCreateTag db name ty).1.garnishes = db.garnishes ∧
    (findOrCreateTag db name ty).1.cocktail_tags = db.cocktail_tags ∧
    (findOrCreateTag db name ty).1.cocktail_garnishes = db.cocktail_garnishes ∧
    (findOrCreateTag db name ty).1.next_cocktail_id = db.next_cocktail_id ∧
    (findOrCreateTag db name ty).1.next_ingredient_id = db.next_ingredient_id ∧
    (findOrCreateTag db name ty).1.next_ci_id = db.next_ci_id ∧
    (findOrCreateTag db name ty).1.next_instruction_id = db.next_instruction_id ∧
    (findOrCreateTag db name ty).1.next_garnish_id = db.next_garnish_id := by
  unfold findOrCreateTag
  cases db.tags.find? (fun t => t.name == name && t.ty == ty) <;> simp

/-- Core facts about findOrCreateTag: invariant preserved, table only
grows, the returned entity carries the requested name and type and
resolves to itself by id in the updated table. -/
theorem findOrCreateTag_spec (db : DB) (name ty : String) (h : TagTableInv db) :
    TagTableInv (findOrCreateTag db name ty).1 ∧
    db.next_tag_id ≤ (findOrCreateTag db name ty).1.next_tag_id ∧
    (∃ tail, (findOrCreateTag db name ty).1.tags = db.tags ++ tail) ∧
    (findOrCreateTag db name ty).2.name = name ∧
    (findOrCreateTag db name ty).2.ty = ty ∧
    (findOrCreateTag db name ty).2 ∈ (findOrCreateTag db name ty).1.tags ∧
    (findOrCreateTag db name ty).1.tags.find?
        (fun x => x.id == (findOrCreateTag db name ty).2.id)
      = some (findOrCreateTag db name ty).2 := by
  obtain ⟨hid, hkey, hlt⟩ := h
  cases hf : db.tags.find? (fun t => t.name == name && t.ty == ty) with
  | some t =>
    have ht : t ∈ db.tags := List.mem_of_find?_eq_some hf
    have htkey : t.name = name ∧ t.ty = ty := by
      have := List.find?_some hf
      simp only [Bool.and_eq_true, beq_iff_eq] at this
      exact this
    have hres : db.tags.find? (fun x => x.id == t.id) = some t :=
      find?_key_of_nodup (fun x => x.id) db.tags t hid ht
    simp only [findOrCreateTag, hf]
    exact ⟨⟨hid, hkey, hlt⟩, Nat.le_refl _, ⟨[], by simp⟩, htkey.1, htkey.2, ht, hres⟩
  | none =>
    have hnotin : ∀ t ∈ db.tags, ¬(t.name = name ∧ t.ty = ty) := by
      intro t ht heq
      have := List.find?_eq_none.mp hf t ht
      simp [heq.1, heq.2] at this
    simp only [findOrCreateTag, hf]
    refine ⟨⟨?_, ?_, ?_⟩, Nat.le_succ _, ⟨[⟨db.next_tag_id, name, ty⟩], rfl⟩,
      by trivial, by trivial, by simp, ?_⟩
    · rw [List.map_append, List.nodup_append]
      refine ⟨hid, by simp, ?_⟩
      intro x hx
      simp only [List.map_cons, List.map_nil, List.mem_cons, List.not_mem_nil, or_false]
      rcases List.mem_map.mp hx with ⟨t, ht, htx⟩
      intro heq
      exact absurd (htx ▸ heq ▸ hlt t ht) (Nat.lt_irrefl _)
    · rw [List.map_append, List.nodup_append]
      refine ⟨hkey, by simp, ?_⟩
      intro x hx
      simp only [List.map_cons, List.map_nil, List.mem_cons, List.not_mem_nil, or_false]
      rcases List.mem_map.mp hx with ⟨t, ht, htx⟩
      intro heq
      have : t.name = name ∧ t.ty = ty := by
        have := htx ▸ heq
        exact ⟨congrArg Prod.fst this, congrArg Prod.snd this⟩
      exact hnotin t ht this
    · intro t ht
      rcases List.mem_append.mp ht with h | h
      · exact Nat.lt_succ_of_lt (hlt t h)
      · simp only [List.mem_cons, List.not_mem_nil, or_false] at h
        subst h
        exact Nat.lt_succ_self _
    · rw [List.find?_append]
      have hpre : db.tags.find? (fun x => x.id == db.next_tag_id) = none := by
        rw [List.find?_eq_none]
        intro t ht hbeq
        exact absurd ((beq_iff_eq.mp hbeq) ▸ hlt t ht) (Nat.lt_irrefl _)
      rw [hpre]
      simp

/-! ## addIngredientLines lemmas -/

/-- The document entry that round-tripping one input ingredient line
should produce. -/
def inputIngredientRead (i : IngredientCreate) : IngredientRead :=
  { name := i.name, quantity := i.quantity, unit := i.unit, notes := i.notes }

/-- The ingredients loop touches only the ingredients and
cocktail_ingredients tables and their counters. -/
theorem addIngredientLines_frame (cid : Nat) :
    ∀ (ings : List IngredientCreate) (db : DB),
      (addIngredientLines db cid ings).cocktails = db.cocktails ∧
      (addIngredientLines db cid ings).instructions = db.instructions ∧
      (addIngredientLines db cid ings).tags = db.tags ∧
      (addIngredientLines db cid ings).garnishes = db.garnishes ∧
      (addIngredientLines db cid ings).cocktail_tags = db.cocktail_tags ∧
      (addIngredientLines db cid ings).cocktail_garnishes = db.cocktail_garnishes ∧
      (addIngredientLines db cid ings).next_cocktail_id = db.next_cocktail_id ∧
      (addIngredientLines db cid ings).next_instruction_id = db.next_instruction_id ∧
      (addIngredientLines db cid ings).next_tag_id = db.next_tag_id ∧
      (addIngredientLines db cid ings).next_garnish_id = db.next_garnish_id := by
  intro ings
  induction ings with
  | nil =>
    intro db
    exact ⟨rfl, rfl, rfl, rfl, rfl, rfl, rfl, rfl, rfl, rfl⟩
  | cons ing rest ih =>
    intro db
    have hf := findOrCreateIngredient_frame db ing.name
    have h2 := ih (addIngredientLine db cid ing)
    refine ⟨h2.1.trans hf.1, h2.2.1.trans hf.2.2.1, h2.2.2.1.trans hf.2.2.2.1,
      h2.2.2.2.1.trans hf.2.2.2.2.1, h2.2.2.2.2.1.trans hf.2.2.2.2.2.1,
      h2.2.2.2.2.2.1.trans hf.2.2.2.2.2.2.1, h2.2.2.2.2.2.2.1.trans hf.2.2.2.2.2.2.2.1,
      h2.2.2.2.2.2.2.2.1.trans hf.2.2.2.2.2.2.2.2.2.1,
      h2.2.2.2.2.2.2.2.2.1.trans hf.2.2.2.2.2.2.2.2.2.2.1,
      h2.2.2.2.2.2.2.2.2.2.trans hf.2.2.2.2.2.2.2.2.2.2.2⟩

/-- The ingredients loop preserves the ingredients-table invariant and
only appends to the ingredients table. -/
theorem addIngredientLines_inv (cid : Nat) :
    ∀ (ings : List IngredientCreate) (db : DB), IngTableInv db →
      IngTableInv (addIngredientLines db cid ings) ∧
      db.next_ingredient_id ≤ (addIngredientLines db cid ings).next_ingredient_id ∧
      ∃ tail, (addIngredientLines db cid ings).ingredients = db.ingredients ++ tail := by
  intro ings
  induction ings with
  | nil =>
    intro db h
    exact ⟨h, Nat.le_refl _, [], by simp [addIngredientLines]⟩
  | cons ing rest ih =>
    intro db h
    obtain ⟨hinv1, hle1, ⟨tail1, hext1⟩, -, -⟩ := findOrCreateIngredient_spec db ing.name h
    obtain ⟨hinv2, hle2, tail2, hext2⟩ := ih (addIngredientLine db cid ing) hinv1
    simp only [addIngredientLines]
    refine ⟨hinv2, Nat.le_trans hle1 hle2, tail1 ++ tail2, ?_⟩
    rw [hext2]
    show (findOrCreateIngredient db ing.name).1.ingredients ++ tail2 = _
    rw [hext1, List.append_assoc]

/-- The rows the ingredients loop appends to cocktail_ingredients: one
per input line, in input order, each carrying the line's attributes and
resolving through the final ingredients table to the line's name. -/
theorem addIngredientLines_rows (cid : Nat) :
    ∀ (ings : List IngredientCreate) (db : DB), IngTableInv db →
      ∃ rows, (addIngredientLines db cid ings).cocktail_ingredients
            = db.cocktail_ingredients ++ rows ∧
        (∀ ci ∈ rows, ci.cocktail_id = cid) ∧
        rows.map (ciRead (addIngredientLines db cid ings).ingredients)
          = ings.map inputIngredientRead ∧
        ∀ ci ∈ rows, ((addIngredientLines db cid ings).ingredients.find?
            (fun x => x.id == ci.ingredient_id)).isSome := by
  intro ings
  induction ings with
  | nil =>
    intro db h
    exact ⟨[], by simp [addIngredientLines], by simp, by simp [addIngredientLines], by simp⟩
  | cons ing rest ih =>
    intro db h
    obtain ⟨hinv1, -, -, hname, hres⟩ := findOrCreateIngredient_spec db ing.name h
    obtain ⟨rows', hext, hcid, hmap, hsome⟩ := ih (addIngredientLine db cid ing) hinv1
    obtain ⟨-, -, tail2, hext2⟩ := addIngredientLines_inv cid rest (addIngredientLine db cid ing) hinv1
    have hres' : (addIngredientLine db cid ing).ingredients.find?
        (fun x => x.id == (findOrCreateIngredient db ing.name).2.id)
        = some (findOrCreateIngredient db ing.name).2 := hres
    have hresFinal : (addIngredientLines (addIngredientLine db cid ing) cid rest).ingredients.find?
        (fun x => x.id == (findOrCreateIngredient db ing.name).2.id)
        = some (findOrCreateIngredient db ing.name).2 := by
      rw [hext2, find?_append_of_isSome tail2 (by rw [hres']; rfl), hres']
    simp only [addIngredientLines]
    refine ⟨{ id := (findOrCreateIngredient db ing.name).1.next_ci_id
              cocktail_id := cid
              ingredient_id := (findOrCreateIngredient db ing.name).2.id
              quantity := ing.quantity
              unit := ing.unit
              notes := ing.notes } :: rows', ?_, ?_, ?_, ?_⟩
    · show (addIngredientLines (addIngredientLine db cid ing) cid rest).cocktail_ingredients = _
      rw [hext]
      show ((findOrCreateIngredient db ing.name).1.cocktail_ingredients ++ _) ++ rows' = _
      rw [(findOrCreateIngredient_frame db ing.name).2.1, List.append_assoc]
      rfl
    · intro ci hci
      rcases List.mem_cons.mp hci with h | h
      · rw [h]
      · exact hcid ci h
    · rw [List.map_cons, List.map_cons, hmap]
      congr 1
      show ciRead _ _ = inputIngredientRead ing
      simp [ciRead, inputIngredientRead, ingredientNameOf, hresFinal, hname]
    · intro ci hci
      rcases List.mem_cons.mp hci with h | h
      · rw [h, hresFinal]
        rfl
      · exact hsome ci h

/-! ## addInstructions lemmas -/

/-- The Instruction rows the instructions loop inserts, starting from a
given primary key and enumeration index. -/
def mkInstructionRows (cid : Nat) : Nat → Nat → List String → List Instruction
  | _, _, [] => []
  | iid, idx, text :: rest =>
    { id := iid, cocktail_id := cid, step_number := idx + 1, instruction_text := text }
      :: mkInstructionRows cid (iid + 1) (idx + 1) rest

/-- Closed form of the instructions loop: it appends one row per input
string, in input order, and advances the primary-key counter. -/
theorem addInstructions_eq (cid : Nat) :
    ∀ (instrs : List String) (db : DB) (idx : Nat),
      addInstructions db cid idx instrs
        = { db with
            instructions := db.instructions
              ++ mkInstructionRows cid db.next_instruction_id idx instrs
            next_instruction_id := db.next_instruction_id + instrs.length } := by
  intro instrs
  induction instrs with
  | nil =>
    intro db idx
    simp [addInstructions, mkInstructionRows]
  | cons text rest ih =>
    intro db idx
    simp only [addInstructions, mkInstructionRows]
    rw [ih]
    simp [List.append_assoc, Nat.add_assoc, Nat.add_comm 1 rest.length]

/-- The inserted instruction rows reproduce the input texts in order. -/
theorem mkInstructionRows_text (cid : Nat) :
    ∀ (instrs : List String) (iid idx : Nat),
      (mkInstructionRows cid iid idx instrs).map (fun i => i.instruction_text) = instrs := by
  intro instrs
  induction instrs with
  | nil => intro iid idx; simp [mkInstructionRows]
  | cons text rest ih =>
    intro iid idx
    simp [mkInstructionRows, ih]

/-- The inserted instruction rows carry step numbers (input index + 1),
consecutively from idx + 1. -/
theorem mkInstructionRows_steps (cid : Nat) :
    ∀ (instrs : List String) (iid idx : Nat),
      (mkInstructionRows cid iid idx instrs).map (fun i => i.step_number)
        = List.range' (idx + 1) instrs.length := by
  intro instrs
  induction instrs with
  | nil => intro iid idx; simp [mkInstructionRows]
  | cons text rest ih =>
    intro iid idx
    simp [mkInstructionRows, ih, List.range']

/-- All inserted instruction rows belong to the new cocktail. -/
theorem mkInstructionRows_cid (cid : Nat) :
    ∀ (instrs : List String) (iid idx : Nat),
      ∀ r ∈ mkInstructionRows cid iid idx instrs, r.cocktail_id = cid := by
  intro instrs
  induction instrs with
  | nil => intro iid idx; simp [mkInstructionRows]
  | cons text rest ih =>
    intro iid idx r hr
    rcases List.mem_cons.mp hr with h | h
    · rw [h]
    · exact ih (iid + 1) (idx + 1) r h

/-- Every inserted instruction row has step number at least idx + 1. -/
theorem mkInstructionRows_step_ge (cid : Nat) :
    ∀ (instrs : List String) (iid idx : Nat),
      ∀ r ∈ mkInstructionRows cid iid idx instrs, idx + 1 ≤ r.step_number := by
  intro instrs
  induction instrs with
  | nil => intro iid idx; simp [mkInstructionRows]
  | cons text rest ih =>
    intro iid idx r hr
    rcases List.mem_cons.mp hr with h | h
    · rw [h]
    · exact Nat.le_of_succ_le (ih (iid + 1) (idx + 1) r h)

/-- The inserted instruction rows are already sorted by step number. -/
theorem mkInstructionRows_sorted (cid : Nat) :
    ∀ (instrs : List String) (iid idx : Nat),
      (mkInstructionRows cid iid idx instrs).Pairwise
        (fun a b => a.step_number ≤ b.step_number) := by
  intro instrs
  induction instrs with
  | nil => intro iid idx; simp [mkInstructionRows]
  | cons text rest ih =>
    intro iid idx
    refine List.pairwise_cons.mpr ⟨?_, ih (iid + 1) (idx + 1)⟩
    intro r hr
    exact Nat.le_of_succ_le (mkInstructionRows_step_ge cid rest (iid + 1) (idx + 1) r hr)

/-- Calling findOrCreateTag again with the same name and type returns the
same entity and leaves the database unchanged. -/
theorem findOrCreateTag_idem (db : DB) (name ty : String) (h : TagTableInv db) :
    findOrCreateTag (findOrCreateTag db name ty).1 name ty
      = ((findOrCreateTag db name ty).1, (findOrCreateTag db name ty).2) := by
  obtain ⟨hid, hkey, hlt⟩ := h
  cases hf : db.tags.find? (fun t => t.name == name && t.ty == ty) with
  | some t =>
    simp only [findOrCreateTag, hf]
  | none =>
    simp only [findOrCreateTag, hf]
    rw [List.find?_append, hf]
    simp [findOrCreateTag]

/-! ## addGarnishLinks lemmas -/

/-- The garnish loop touches only the garnishes and cocktail_garnishes
tables and the garnish counter. -/
theorem addGarnishLinks_frame (cid : Nat) :
    ∀ (names : List String) (db : DB),
      (addGarnishLinks db cid names).cocktails = db.cocktails ∧
      (addGarnishLinks db cid names).ingredients = db.ingredients ∧
      (addGarnishLinks db cid names).cocktail_ingredients = db.cocktail_ingredients ∧
      (addGarnishLinks db cid names).instructions = db.instructions ∧
      (addGarnishLinks db cid names).tags = db.tags ∧
      (addGarnishLinks db cid names).cocktail_tags = db.cocktail_tags ∧
      (addGarnishLinks db cid names).next_cocktail_id = db.next_cocktail_id ∧
      (addGarnishLinks db cid names).next_ingredient_id = db.next_ingredient_id ∧
      (addGarnishLinks db cid names).next_ci_id = db.next_ci_id ∧
      (addGarnishLinks db cid names).next_instruction_id = db.next_instruction_id ∧
      (addGarnishLinks db cid names).next_tag_id = db.next_tag_id := by
  intro names
  induction names with
  | nil =>
    intro db
    exact ⟨rfl, rfl, rfl, rfl, rfl, rfl, rfl, rfl, rfl, rfl, rfl⟩
  | cons name rest ih =>
    intro db
    obtain ⟨b1, b2, b3, b4, b5, b6, b7, b8, b9, b10, b11, b12⟩ := findOrCreateGarnish_frame db name
    obtain ⟨a1, a2, a3, a4, a5, a6, a7, a8, a9, a10, a11⟩ := ih (addGarnishLink db cid name)
    exact ⟨a1.trans b1, a2.trans b2, a3.trans b3, a4.trans b4, a5.trans b5, a6.trans b6,
      a7.trans b8, a8.trans b9, a9.trans b10, a10.trans b11, a11.trans b12⟩

/-- The garnish loop preserves the garnishes-table invariant and only
appends to the garnishes table. -/
theorem addGarnishLinks_inv (cid : Nat) :
    ∀ (names : List String) (db : DB), GarnishTableInv db →
      GarnishTableInv (addGarnishLinks db cid names) ∧
      db.next_garnish_id ≤ (addGarnishLinks db cid names).next_garnish_id ∧
      ∃ tail, (addGarnishLinks db cid names).garnishes = db.garnishes ++ tail := by
  intro names
  induction names with
  | nil =>
    intro db h
    exact ⟨h, Nat.le_refl _, [], by simp [addGarnishLinks]⟩
  | cons name rest ih =>
    intro db h
    obtain ⟨hinv1, hle1, ⟨tail1, hext1⟩, -, -⟩ := findOrCreateGarnish_spec db name h
    obtain ⟨hinv2, hle2, tail2, hext2⟩ := ih (addGarnishLink db cid name) hinv1
    simp only [addGarnishLinks]
    refine ⟨hinv2, Nat.le_trans hle1 hle2, tail1 ++ tail2, ?_⟩
    rw [hext2]
    show (findOrCreateGarnish db name).1.garnishes ++ tail2 = _
    rw [hext1, List.append_assoc]

/-- The link rows the garnish loop appends: one per input occurrence (no
deduplication), in input order, all for the new cocktail, and resolving
through the final garnishes table to exactly the input names. -/
theorem addGarnishLinks_rows (cid : Nat) :
    ∀ (names : List String) (db : DB), GarnishTableInv db →
      ∃ rows, (addGarnishLinks db cid names).cocktail_garnishes
            = db.cocktail_garnishes ++ rows ∧
        (∀ l ∈ rows, l.cocktail_id = cid) ∧
        rows.length = names.length ∧
        (rows.filterMap (fun l => (addGarnishLinks db cid names).garnishes.find?
            (fun g => g.id == l.garnish_id))).map (fun g => g.name) = names := by
  intro names
  induction names with
  | nil =>
    intro db h
    exact ⟨[], by simp [addGarnishLinks], by simp, by simp, by simp⟩
  | cons name rest ih =>
    intro db h
    obtain ⟨hinv1, -, -, hname, hres⟩ := findOrCreateGarnish_spec db name h
    obtain ⟨rows', hext, hcid, hlen, hmap⟩ := ih (addGarnishLink db cid name) hinv1
    obtain ⟨-, -, tail2, hext2⟩ := addGarnishLinks_inv cid rest (addGarnishLink db cid name) hinv1
    have hres' : (addGarnishLink db cid name).garnishes.find?
        (fun x => x.id == (findOrCreateGarnish db name).2.id)
        = some (findOrCreateGarnish db name).2 := hres
    have hresFinal : (addGarnishLinks (addGarnishLink db cid name) cid rest).garnishes.find?
        (fun x => x.id == (findOrCreateGarnish db name).2.id)
        = some (findOrCreateGarnish db name).2 := by
      rw [hext2, find?_append_of_isSome tail2 (by rw [hres']; rfl), hres']
    simp only [addGarnishLinks]
    refine ⟨{ cocktail_id := cid, garnish_id := (findOrCreateGarnish db name).2.id } :: rows',
      ?_, ?_, ?_, ?_⟩
    · rw [hext]
      show ((findOrCreateGarnish db name).1.cocktail_garnishes ++ _) ++ rows' = _
      rw [(findOrCreateGarnish_frame db name).2.2.2.2.2.2.1, List.append_assoc]
      rfl
    · intro l hl
      rcases List.mem_cons.mp hl with h | h
      · rw [h]
      · exact hcid l h
    · simp [hlen]
    · simp only [List.filterMap_cons, hresFinal, List.map_cons, hmap, hname]

/-! ## addTagLinks lemmas -/

/-- The tag loop touches only the tags and cocktail_tags tables and the
tag counter. -/
theorem addTagLinks_frame (cid : Nat) (ty : String) :
    ∀ (names : List String) (db : DB),
      (addTagLinks db cid ty names).cocktails = db.cocktails ∧
      (addTagLinks db cid ty names).ingredients = db.ingredients ∧
      (addTagLinks db cid ty names).cocktail_ingredients = db.cocktail_ingredients ∧
      (addTagLinks db cid ty names).instructions = db.instructions ∧
      (addTagLinks db cid ty names).garnishes = db.garnishes ∧
      (addTagLinks db cid ty names).cocktail_garnishes = db.cocktail_garnishes ∧
      (addTagLinks db cid ty names).next_cocktail_id = db.next_cocktail_id ∧
      (addTagLinks db cid ty names).next_ingredient_id = db.next_ingredient_id ∧
      (addTagLinks db cid ty names).next_ci_id = db.next_ci_id ∧
      (addTagLinks db cid ty names).next_instruction_id = db.next_instruction_id ∧
      (addTagLinks db cid ty names).next_garnish_id = db.next_garnish_id := by
  intro names
  induction names with
  | nil =>
    intro db
    exact ⟨rfl, rfl, rfl, rfl, rfl, rfl, rfl, rfl, rfl, rfl, rfl⟩
  | cons name rest ih =>
    intro db
    obtain ⟨b1, b2, b3, b4, b5, b6, b7, b8, b9, b10, b11, b12⟩ := findOrCreateTag_frame db name ty
    obtain ⟨a1, a2, a3, a4, a5, a6, a7, a8, a9, a10, a11⟩ := ih (addTagLink db cid ty name)
    exact ⟨a1.trans b1, a2.trans b2, a3.trans b3, a4.trans b4, a5.trans b5, a6.trans b7,
      a7.trans b8, a8.trans b9, a9.trans b10, a10.trans b11, a11.trans b12⟩

/-- The tag loop preserves the tags-table invariant and only appends to
the tags table. -/
theorem addTagLinks_inv (cid : Nat) (ty : String) :
    ∀ (names : List String) (db : DB), TagTableInv db →
      TagTableInv (addTagLinks db cid ty names) ∧
      db.next_tag_id ≤ (addTagLinks db cid ty names).next_tag_id ∧
      ∃ tail, (addTagLinks db cid ty names).tags = db.tags ++ tail := by
  intro names
  induction names with
  | nil =>
    intro db h
    exact ⟨h, Nat.le_refl _, [], by simp [addTagLinks]⟩
  | cons name rest ih =>
    intro db h
    obtain ⟨hinv1, hle1, ⟨tail1, hext1⟩, -, -, -, -⟩ := findOrCreateTag_spec db name ty h
    obtain ⟨hinv2, hle2, tail2, hext2⟩ := ih (addTagLink db cid ty name) hinv1
    simp only [addTagLinks]
    refine ⟨hinv2, Nat.le_trans hle1 hle2, tail1 ++ tail2, ?_⟩
    rw [hext2]
    show (findOrCreateTag db name ty).1.tags ++ tail2 = _
    rw [hext1, List.append_assoc]

/-- The link rows the tag loop appends: one per input occurrence (no
deduplication), in input order, all for the new cocktail, and resolving
through the final tags table to the input names, each with the loop's
type. -/
theorem addTagLinks_rows (cid : Nat) (ty : String) :
    ∀ (names : List String) (db : DB), TagTableInv db →
      ∃ rows, (addTagLinks db cid ty names).cocktail_tags = db.cocktail_tags ++ rows ∧
        (∀ l ∈ rows, l.cocktail_id = cid) ∧
        rows.length = names.length ∧
        (∀ l ∈ rows, ((addTagLinks db cid ty names).tags.find?
            (fun t => t.id == l.tag_id)).isSome) ∧
        (rows.filterMap (fun l => (addTagLinks db cid ty names).tags.find?
            (fun t => t.id == l.tag_id))).map (fun t => (t.name, t.ty))
          = names.map (fun n => (n, ty)) := by
  intro names
  induction names with
  | nil =>
    intro db h
    exact ⟨[], by simp [addTagLinks], by simp, by simp, by simp, by simp⟩
  | cons name rest ih =>
    intro db h
    obtain ⟨hinv1, -, -, hname, hty, -, hres⟩ := findOrCreateTag_spec db name ty h
    obtain ⟨rows', hext, hcid, hlen, hsome, hmap⟩ := ih (addTagLink db cid ty name) hinv1
    obtain ⟨-, -, tail2, hext2⟩ := addTagLinks_inv cid ty rest (addTagLink db cid ty name) hinv1
    have hres' : (addTagLink db cid ty name).tags.find?
        (fun x => x.id == (findOrCreateTag db name ty).2.id)
        = some (findOrCreateTag db name ty).2 := hres
    have hresFinal : (addTagLinks (addTagLink db cid ty name) cid ty rest).tags.find?
        (fun x => x.id == (findOrCreateTag db name ty).2.id)
        = some (findOrCreateTag db name ty).2 := by
      rw [hext2, find?_append_of_isSome tail2 (by rw [hres']; rfl), hres']
    simp only [addTagLinks]
    refine ⟨{ cocktail_id := cid, tag_id := (findOrCreateTag db name ty).2.id } :: rows',
      ?_, ?_, ?_, ?_, ?_⟩
    · rw [hext]
      show ((findOrCreateTag db name ty).1.cocktail_tags ++ _) ++ rows' = _
      rw [(findOrCreateTag_frame db name ty).2.2.2.2.2.1, List.append_assoc]
      rfl
    · intro l hl
      rcases List.mem_cons.mp hl with h | h
      · rw [h]
      · exact hcid l h
    · simp [hlen]
    · intro l hl
      rcases List.mem_cons.mp hl with h | h
      · subst h
        show ((addTagLinks (addTagLink db cid ty name) cid ty rest).tags.find?
            (fun t => t.id == (findOrCreateTag db name ty).2.id)).isSome = true
        rw [hresFinal]
        rfl
      · exact hsome l h
    · simp only [List.filterMap_cons, hresFinal, List.map_cons, hmap, hname, hty]

/-- Every name handed to the tag loop ends up backed by a Tag row with
that name and the loop's type. -/
theorem addTagLinks_provides (cid : Nat) (ty : String) :
    ∀ (names : List String) (db : DB), TagTableInv db →
      ∀ n ∈ names, ∃ t ∈ (addTagLinks db cid ty names).tags, t.name = n ∧ t.ty = ty := by
  intro names
  induction names with
  | nil =>
    intro db h n hn
    simp at hn
  | cons name rest ih =>
    intro db h n hn
    obtain ⟨hinv1, -, -, hname, hty, hmem, -⟩ := findOrCreateTag_spec db name ty h
    obtain ⟨-, -, tail2, hext2⟩ := addTagLinks_inv cid ty rest (addTagLink db cid ty name) hinv1
    rcases List.mem_cons.mp hn with hcase | hcase
    · refine ⟨(findOrCreateTag db name ty).2, ?_, hcase ▸ hname, hty⟩
      show _ ∈ (addTagLinks (addTagLink db cid ty name) cid ty rest).tags
      rw [hext2]
      exact List.mem_append_left tail2 hmem
    · exact ih (addTagLink db cid ty name) hinv1 n hcase

/-! ## Well-formedness of the whole database -/

/-- Every state reachable by the application satisfies this invariant:
cocktail ids are distinct and below the cocktail counter, every link row
references an already-issued cocktail id, and the three vocabulary tables
satisfy their invariants. -/
def WF (db : DB) : Prop :=
  (db.cocktails.map (fun c => c.id)).Nodup ∧
  (∀ c ∈ db.cocktails, c.id < db.next_cocktail_id) ∧
  (∀ ci ∈ db.cocktail_ingredients, ci.cocktail_id < db.next_cocktail_id) ∧
  (∀ i ∈ db.instructions, i.cocktail_id < db.next_cocktail_id) ∧
  (∀ l ∈ db.cocktail_tags, l.cocktail_id < db.next_cocktail_id) ∧
  (∀ l ∈ db.cocktail_garnishes, l.cocktail_id < db.next_cocktail_id) ∧
  IngTableInv db ∧ TagTableInv db ∧ GarnishTableInv db

/-- The fresh database is well-formed. -/
theorem WF_emptyDB : WF emptyDB := by
  simp [WF, IngTableInv, TagTableInv, GarnishTableInv, emptyDB]

/-- IngTableInv only depends on the ingredients table and its counter. -/
theorem IngTableInv_congr {db db' : DB} (h1 : db'.ingredients = db.ingredients)
    (h2 : db'.next_ingredient_id = db.next_ingredient_id) (h : IngTableInv db) :
    IngTableInv db' := by
  unfold IngTableInv at h ⊢
  rw [h1, h2]
  exact h

/-- TagTableInv only depends on the tags table and its counter. -/
theorem TagTableInv_congr {db db' : DB} (h1 : db'.tags = db.tags)
    (h2 : db'.next_tag_id = db.next_tag_id) (h : TagTableInv db) : TagTableInv db' := by
  unfold TagTableInv at h ⊢
  rw [h1, h2]
  exact h

/-- GarnishTableInv only depends on the garnishes table and its counter. -/
theorem GarnishTableInv_congr {db db' : DB} (h1 : db'.garnishes = db.garnishes)
    (h2 : db'.next_garnish_id = db.next_garnish_id) (h : GarnishTableInv db) :
    GarnishTableInv db' := by
  unfold GarnishTableInv at h ⊢
  rw [h1, h2]
  exact h

/-- Inserting the Cocktail row preserves well-formedness. -/
theorem WF_insertCocktailRow (db : DB) (c : CocktailCreate) (h : WF db) :
    WF (insertCocktailRow db c).1 := by
  obtain ⟨hctid, hctlt, hcilt, hinlt, htllt, hgllt, hing, htag, hgar⟩ := h
  refine ⟨?_, ?_, ?_, ?_, ?_, ?_, ?_, ?_, ?_⟩
  · simp only [insertCocktailRow]
    rw [List.map_append, List.nodup_append]
    refine ⟨hctid, by simp, ?_⟩
    intro x hx
    simp only [List.map_cons, List.map_nil, List.mem_cons, List.not_mem_nil, or_false]
    rcases List.mem_map.mp hx with ⟨r, hr, hrx⟩
    intro heq
    exact absurd (hrx ▸ heq ▸ hctlt r hr) (Nat.lt_irrefl _)
  · intro r hr
    rcases List.mem_append.mp hr with hcase | hcase
    · exact Nat.lt_succ_of_lt (hctlt r hcase)
    · simp only [List.mem_cons, List.not_mem_nil, or_false] at hcase
      rw [hcase]
      exact Nat.lt_succ_self _
  · intro ci hci
    exact Nat.lt_succ_of_lt (hcilt ci hci)
  · intro i hi
    exact Nat.lt_succ_of_lt (hinlt i hi)
  · intro l hl
    exact Nat.lt_succ_of_lt (htllt l hl)
  · intro l hl
    exact Nat.lt_succ_of_lt (hgllt l hl)
  · exact IngTableInv_congr rfl rfl hing
  · exact TagTableInv_congr rfl rfl htag
  · exact GarnishTableInv_congr rfl rfl hgar

/-- The ingredients loop preserves well-formedness when run for an
already-issued cocktail id. -/
theorem WF_addIngredientLines (db : DB) (cid : Nat) (ings : List IngredientCreate)
    (h : WF db) (hcid : cid < db.next_cocktail_id) :
    WF (addIngredientLines db cid ings) := by
  obtain ⟨hctid, hctlt, hcilt, hinlt, htllt, hgllt, hing, htag, hgar⟩ := h
  obtain ⟨f1, f2, f3, f4, f5, f6, f7, f8, f9, f10⟩ := addIngredientLines_frame cid ings db
  obtain ⟨rows, hext, hrcid, -, -⟩ := addIngredientLines_rows cid ings db hing
  obtain ⟨hing', -, -⟩ := addIngredientLines_inv cid ings db hing
  refine ⟨?_, ?_, ?_, ?_, ?_, ?_, hing', ?_, ?_⟩
  · rw [f1]
    exact hctid
  · rw [f1, f7]
    exact hctlt
  · rw [hext, f7]
    intro ci hci
    rcases List.mem_append.mp hci with hcase | hcase
    · exact hcilt ci hcase
    · rw [hrcid ci hcase]
      exact hcid
  · rw [f2, f7]
    exact hinlt
  · rw [f5, f7]
    exact htllt
  · rw [f6, f7]
    exact hgllt
  · exact TagTableInv_congr f3 f9 htag
  · exact GarnishTableInv_congr f4 f10 hgar

/-- The instructions loop preserves well-formedness when run for an
already-issued cocktail id. -/
theorem WF_addInstructions (db : DB) (cid : Nat) (instrs : List String) (idx : Nat)
    (h : WF db) (hcid : cid < db.next_cocktail_id) :
    WF (addInstructions db cid idx instrs) := by
  obtain ⟨hctid, hctlt, hcilt, hinlt, htllt, hgllt, hing, htag, hgar⟩ := h
  rw [addInstructions_eq]
  refine ⟨hctid, hctlt, hcilt, ?_, htllt, hgllt,
    IngTableInv_congr rfl rfl hing, TagTableInv_congr rfl rfl htag,
    GarnishTableInv_congr rfl rfl hgar⟩
  intro i hi
  rcases List.mem_append.mp hi with hcase | hcase
  · exact hinlt i hcase
  · rw [mkInstructionRows_cid cid instrs db.next_instruction_id idx i hcase]
    exact hcid

/-- The garnish loop preserves well-formedness when run for an
already-issued cocktail id. -/
theorem WF_addGarnishLinks (db : DB) (cid : Nat) (names : List String)
    (h : WF db) (hcid : cid < db.next_cocktail_id) :
    WF (addGarnishLinks db cid names) := by
  obtain ⟨hctid, hctlt, hcilt, hinlt, htllt, hgllt, hing, htag, hgar⟩ := h
  obtain ⟨f1, f2, f3, f4, f5, f6, f7, f8, f9, f10, f11⟩ := addGarnishLinks_frame cid names db
  obtain ⟨rows, hext, hrcid, -, -⟩ := addGarnishLinks_rows cid names db hgar
  obtain ⟨hgar', -, -⟩ := addGarnishLinks_inv cid names db hgar
  refine ⟨?_, ?_, ?_, ?_, ?_, ?_, ?_, ?_, hgar'⟩
  · rw [f1]
    exact hctid
  · rw [f1, f7]
    exact hctlt
  · rw [f3, f7]
    exact hcilt
  · rw [f4, f7]
    exact hinlt
  · rw [f6, f7]
    exact htllt
  · rw [hext, f7]
    intro l hl
    rcases List.mem_append.mp hl with hcase | hcase
    · exact hgllt l hcase
    · rw [hrcid l hcase]
      exact hcid
  · exact IngTableInv_congr f2 f8 hing
  · exact TagTableInv_congr f5 f11 htag

/-- The tag loop preserves well-formedness when run for an already-issued
cocktail id. -/
theorem WF_addTagLinks (db : DB) (cid : Nat) (ty : String) (names : List String)
    (h : WF db) (hcid : cid < db.next_cocktail_id) :
    WF (addTagLinks db cid ty names) := by
  obtain ⟨hctid, hctlt, hcilt, hinlt, htllt, hgllt, hing, htag, hgar⟩ := h
  obtain ⟨f1, f2, f3, f4, f5, f6, f7, f8, f9, f10, f11⟩ := addTagLinks_frame cid ty names db
  obtain ⟨rows, hext, hrcid, -, -, -⟩ := addTagLinks_rows cid ty names db htag
  obtain ⟨htag', -, -⟩ := addTagLinks_inv cid ty names db htag
  refine ⟨?_, ?_, ?_, ?_, ?_, ?_, ?_, htag', ?_⟩
  · rw [f1]
    exact hctid
  · rw [f1, f7]
    exact hctlt
  · rw [f3, f7]
    exact hcilt
  · rw [f4, f7]
    exact hinlt
  · rw [hext, f7]
    intro l hl
    rcases List.mem_append.mp hl with hcase | hcase
    · exact htllt l hcase
    · rw [hrcid l hcase]
      exact hcid
  · rw [f6, f7]
    exact hgllt
  · exact IngTableInv_congr f2 f8 hing
  · exact GarnishTableInv_congr f5 f11 hgar

/-! ## The intermediate states of one create_cocktail call -/

/-- State after the first commit (the Cocktail row alone). -/
def createS1 (db : DB) (c : CocktailCreate) : DB := (insertCocktailRow db c).1

/-- State after the ingredients loop. -/
def createS2 (db : DB) (c : CocktailCreate) : DB :=
  addIngredientLines (createS1 db c) db.next_cocktail_id c.ingredients

/-- State after the instructions loop. -/
def createS3 (db : DB) (c : CocktailCreate) : DB :=
  addInstructions (createS2 db c) db.next_cocktail_id 0 c.instructions

/-- State after the garnish loop. -/
def createS4 (db : DB) (c : CocktailCreate) : DB :=
  addGarnishLinks (createS3 db c) db.next_cocktail_id (metaGarnish c)

/-- State after the plain-tag loop. -/
def createS5 (db : DB) (c : CocktailCreate) : DB :=
  addTagLinks (createS4 db c) db.next_cocktail_id "tag" (metaTags c)

/-- State after the flavor-tag loop: the committed final state. -/
def createS6 (db : DB) (c : CocktailCreate) : DB :=
  addTagLinks (createS5 db c) db.next_cocktail_id "flavor_tag" (metaFlavorTags c)

/-- create_cocktail's final state is the composition of its phases. -/
theorem create_cocktail_fst (db : DB) (c : CocktailCreate) :
    (create_cocktail db c).1 = createS6 db c := rfl

/-- create_cocktail's response serializes the new row in the final
state. -/
theorem create_cocktail_snd (db : DB) (c : CocktailCreate) :
    (create_cocktail db c).2
      = serialize_cocktail (createS6 db c) (insertCocktailRow db c).2 := rfl

/-- The new Cocktail row, spelled out. -/
theorem insertCocktailRow_snd (db : DB) (c : CocktailCreate) :
    (insertCocktailRow db c).2
      = { id := db.next_cocktail_id
          title := c.title
          author := c.author
          description := c.description
          difficulty := metaDifficulty c
          glass_type := metaGlassType c
          cover_image := metaCoverImage c } := rfl

/-- The cocktail counter is bumped once, by the insert phase. -/
theorem createS_next_cocktail_id (db : DB) (c : CocktailCreate) :
    (createS1 db c).next_cocktail_id = db.next_cocktail_id + 1 ∧
    (createS2 db c).next_cocktail_id = db.next_cocktail_id + 1 ∧
    (createS3 db c).next_cocktail_id = db.next_cocktail_id + 1 ∧
    (createS4 db c).next_cocktail_id = db.next_cocktail_id + 1 ∧
    (createS5 db c).next_cocktail_id = db.next_cocktail_id + 1 ∧
    (createS6 db c).next_cocktail_id = db.next_cocktail_id + 1 := by
  have h1 : (createS1 db c).next_cocktail_id = db.next_cocktail_id + 1 := rfl
  have h2 : (createS2 db c).next_cocktail_id = db.next_cocktail_id + 1 :=
    ((addIngredientLines_frame db.next_cocktail_id c.ingredients
      (createS1 db c)).2.2.2.2.2.2.1).trans h1
  have h3 : (createS3 db c).next_cocktail_id = db.next_cocktail_id + 1 := by
    show (addInstructions (createS2 db c) db.next_cocktail_id 0 c.instructions).next_cocktail_id = _
    rw [addInstructions_eq]
    exact h2
  have h4 : (createS4 db c).next_cocktail_id = db.next_cocktail_id + 1 :=
    ((addGarnishLinks_frame db.next_cocktail_id (metaGarnish c)
      (createS3 db c)).2.2.2.2.2.2.1).trans h3
  have h5 : (createS5 db c).next_cocktail_id = db.next_cocktail_id + 1 :=
    ((addTagLinks_frame db.next_cocktail_id "tag" (metaTags c)
      (createS4 db c)).2.2.2.2.2.2.1).trans h4
  have h6 : (createS6 db c).next_cocktail_id = db.next_cocktail_id + 1 :=
    ((addTagLinks_frame db.next_cocktail_id "flavor_tag" (metaFlavorTags c)
      (createS5 db c)).2.2.2.2.2.2.1).trans h5
  exact ⟨h1, h2, h3, h4, h5, h6⟩

/-- Well-formedness propagates through every phase of create_cocktail. -/
theorem WF_createS (db : DB) (c : CocktailCreate) (h : WF db) :
    WF (createS1 db c) ∧ WF (createS2 db c) ∧ WF (createS3 db c) ∧
    WF (createS4 db c) ∧ WF (createS5 db c) ∧ WF (createS6 db c) := by
  obtain ⟨n1, n2, n3, n4, n5, n6⟩ := createS_next_cocktail_id db c
  have w1 : WF (createS1 db c) := WF_insertCocktailRow db c h
  have w2 : WF (createS2 db c) :=
    WF_addIngredientLines (createS1 db c) db.next_cocktail_id c.ingredients w1
      (by rw [n1]; exact Nat.lt_succ_self _)
  have w3 : WF (createS3 db c) :=
    WF_addInstructions (createS2 db c) db.next_cocktail_id c.instructions 0 w2
      (by rw [n2]; exact Nat.lt_succ_self _)
  have w4 : WF (createS4 db c) :=
    WF_addGarnishLinks (createS3 db c) db.next_cocktail_id (metaGarnish c) w3
      (by rw [n3]; exact Nat.lt_succ_self _)
  have w5 : WF (createS5 db c) :=
    WF_addTagLinks (createS4 db c) db.next_cocktail_id "tag" (metaTags c) w4
      (by rw [n4]; exact Nat.lt_succ_self _)
  have w6 : WF (createS6 db c) :=
    WF_addTagLinks (createS5 db c) db.next_cocktail_id "flavor_tag" (metaFlavorTags c) w5
      (by rw [n5]; exact Nat.lt_succ_self _)
  exact ⟨w1, w2, w3, w4, w5, w6⟩

/-- create_cocktail preserves well-formedness. -/
theorem create_WF (db : DB) (c : CocktailCreate) (h : WF db) :
    WF (create_cocktail db c).1 := by
  rw [create_cocktail_fst]
  exact (WF_createS db c h).2.2.2.2.2

/-- The tables the late phases leave untouched, related back to the phase
that owns them. -/
theorem createS6_frames (db : DB) (c : CocktailCreate) :
    (createS6 db c).cocktails = db.cocktails ++ [(insertCocktailRow db c).2] ∧
    (createS6 db c).ingredients = (createS2 db c).ingredients ∧
    (createS6 db c).cocktail_ingredients = (createS2 db c).cocktail_ingredients ∧
    (createS6 db c).instructions = (createS3 db c).instructions ∧
    (createS6 db c).garnishes = (createS4 db c).garnishes ∧
    (createS6 db c).cocktail_garnishes = (createS4 db c).cocktail_garnishes := by
  have f2 := addIngredientLines_frame db.next_cocktail_id c.ingredients (createS1 db c)
  have f4 := addGarnishLinks_frame db.next_cocktail_id (metaGarnish c) (createS3 db c)
  have f5 := addTagLinks_frame db.next_cocktail_id "tag" (metaTags c) (createS4 db c)
  have f6 := addTagLinks_frame db.next_cocktail_id "flavor_tag" (metaFlavorTags c) (createS5 db c)
  have e3ci : (createS3 db c).cocktail_ingredients = (createS2 db c).cocktail_ingredients := by
    show (addInstructions (createS2 db c) db.next_cocktail_id 0 c.instructions).cocktail_ingredients = _
    rw [addInstructions_eq]
  have e3ing : (createS3 db c).ingredients = (createS2 db c).ingredients := by
    show (addInstructions (createS2 db c) db.next_cocktail_id 0 c.instructions).ingredients = _
    rw [addInstructions_eq]
  have e3ct : (createS3 db c).cocktails = (createS2 db c).cocktails := by
    show (addInstructions (createS2 db c) db.next_cocktail_id 0 c.instructions).cocktails = _
    rw [addInstructions_eq]
  have e3gar : (createS3 db c).garnishes = (createS2 db c).garnishes := by
    show (addInstructions (createS2 db c) db.next_cocktail_id 0 c.instructions).garnishes = _
    rw [addInstructions_eq]
  have e3cg : (createS3 db c).cocktail_garnishes = (createS2 db c).cocktail_garnishes := by
    show (addInstructions (createS2 db c) db.next_cocktail_id 0 c.instructions).cocktail_garnishes = _
    rw [addInstructions_eq]
  have g6ct : (createS6 db c).cocktails = (createS5 db c).cocktails := f6.1
  have g5ct : (createS5 db c).cocktails = (createS4 db c).cocktails := f5.1
  have g4ct : (createS4 db c).cocktails = (createS3 db c).cocktails := f4.1
  have g2ct : (createS2 db c).cocktails = (createS1 db c).cocktails := f2.1
  have g6ing : (createS6 db c).ingredients = (createS5 db c).ingredients := f6.2.1
  have g5ing : (createS5 db c).ingredients = (createS4 db c).ingredients := f5.2.1
  have g4ing : (createS4 db c).ingredients = (createS3 db c).ingredients := f4.2.1
  have g6ci : (createS6 db c).cocktail_ingredients
      = (createS5 db c).cocktail_ingredients := f6.2.2.1
  have g5ci : (createS5 db c).cocktail_ingredients
      = (createS4 db c).cocktail_ingredients := f5.2.2.1
  have g4ci : (createS4 db c).cocktail_ingredients
      = (createS3 db c).cocktail_ingredients := f4.2.2.1
  have g6in : (createS6 db c).instructions = (createS5 db c).instructions := f6.2.2.2.1
  have g5in : (createS5 db c).instructions = (createS4 db c).instructions := f5.2.2.2.1
  have g4in : (createS4 db c).instructions = (createS3 db c).instructions := f4.2.2.2.1
  have g6gar : (createS6 db c).garnishes = (createS5 db c).garnishes := f6.2.2.2.2.1
  have g5gar : (createS5 db c).garnishes = (createS4 db c).garnishes := f5.2.2.2.2.1
  have g6cg : (createS6 db c).cocktail_garnishes
      = (createS5 db c).cocktail_garnishes := f6.2.2.2.2.2.1
  have g5cg : (createS5 db c).cocktail_garnishes
      = (createS4 db c).cocktail_garnishes := f5.2.2.2.2.2.1
  refine ⟨?_, ?_, ?_, ?_, ?_, ?_⟩
  · rw [g6ct, g5ct, g4ct, e3ct, g2ct]
    rfl
  · rw [g6ing, g5ing, g4ing, e3ing]
  · rw [g6ci, g5ci, g4ci, e3ci]
  · rw [g6in, g5in, g4in]
  · rw [g6gar, g5gar]
  · rw [g6cg, g5cg]

/-! ## What one create call stores, phase by phase -/

/-- The CocktailIngredient rows one create call stores for its new
recipe: appended after the existing rows, one per input line, projecting
back to the input lines. -/
theorem create_ci_rows (db : DB) (c : CocktailCreate) (h : WF db) :
    ∃ rows, (createS6 db c).cocktail_ingredients = db.cocktail_ingredients ++ rows ∧
      (∀ ci ∈ rows, ci.cocktail_id = db.next_cocktail_id) ∧
      rows.map (ciRead (createS6 db c).ingredients) = c.ingredients.map inputIngredientRead ∧
      (∀ ci ∈ rows, ((createS6 db c).ingredients.find?
          (fun x => x.id == ci.ingredient_id)).isSome) := by
  have hing1 : IngTableInv (createS1 db c) :=
    IngTableInv_congr rfl rfl h.2.2.2.2.2.2.1
  obtain ⟨rows, hext, hcid, hmap, hsome⟩ :=
    addIngredientLines_rows db.next_cocktail_id c.ingredients (createS1 db c) hing1
  obtain ⟨-, hS6ing, hS6ci, -, -, -⟩ := createS6_frames db c
  have hext' : (createS2 db c).cocktail_ingredients = db.cocktail_ingredients ++ rows := hext
  have hmap' : rows.map (ciRead (createS2 db c).ingredients)
      = c.ingredients.map inputIngredientRead := hmap
  have hsome' : ∀ ci ∈ rows, ((createS2 db c).ingredients.find?
      (fun x => x.id == ci.ingredient_id)).isSome := hsome
  refine ⟨rows, ?_, hcid, ?_, ?_⟩
  · rw [hS6ci, hext']
  · rw [hS6ing, hmap']
  · intro ci hci
    rw [hS6ing]
    exact hsome' ci hci

/-- The Instruction rows one create call stores for its new recipe: one
per input string, with step numbers assigned from the 1-based input
position. -/
theorem create_instruction_rows (db : DB) (c : CocktailCreate) (h : WF db) :
    (createS6 db c).instructions.filter
        (fun i => i.cocktail_id == db.next_cocktail_id)
      = mkInstructionRows db.next_cocktail_id db.next_instruction_id 0 c.instructions := by
  obtain ⟨-, -, -, hS6in, -, -⟩ := createS6_frames db c
  have e2in : (createS2 db c).instructions = db.instructions :=
    (addIngredientLines_frame db.next_cocktail_id c.ingredients (createS1 db c)).2.1
  have e2ni : (createS2 db c).next_instruction_id = db.next_instruction_id :=
    (addIngredientLines_frame db.next_cocktail_id c.ingredients
      (createS1 db c)).2.2.2.2.2.2.2.1
  have hstep : (createS3 db c).instructions
      = db.instructions
        ++ mkInstructionRows db.next_cocktail_id db.next_instruction_id 0 c.instructions := by
    show (addInstructions (createS2 db c) db.next_cocktail_id 0 c.instructions).instructions = _
    rw [addInstructions_eq]
    show (createS2 db c).instructions ++ mkInstructionRows db.next_cocktail_id
      (createS2 db c).next_instruction_id 0 c.instructions = _
    rw [e2in, e2ni]
  rw [hS6in, hstep, List.filter_append]
  have hold : db.instructions.filter
      (fun i => i.cocktail_id == db.next_cocktail_id) = [] := by
    apply filter_eq_nil_of_none
    intro i hi hbeq
    exact absurd ((beq_iff_eq.mp hbeq) ▸ h.2.2.2.1 i hi) (Nat.lt_irrefl _)
  have hnew : (mkInstructionRows db.next_cocktail_id db.next_instruction_id 0
      c.instructions).filter (fun i => i.cocktail_id == db.next_cocktail_id)
      = mkInstructionRows db.next_cocktail_id db.next_instruction_id 0 c.instructions := by
    apply List.filter_eq_self.mpr
    intro i hi
    exact beq_iff_eq.mpr
      (mkInstructionRows_cid db.next_cocktail_id c.instructions db.next_instruction_id 0 i hi)
  rw [hold, hnew, List.nil_append]

/-- The response document reproduces the instructions list verbatim. -/
theorem create_doc_instructions (db : DB) (c : CocktailCreate) (h : WF db) :
    (create_cocktail db c).2.instructions = c.instructions := by
  rw [create_cocktail_snd]
  show (((createS6 db c).instructions.filter
      (fun i => i.cocktail_id == db.next_cocktail_id)).mergeSort
      (fun a b => decide (a.step_number ≤ b.step_number))).map
      (fun i => i.instruction_text) = c.instructions
  rw [create_instruction_rows db c h]
  rw [List.mergeSort_of_sorted
    ((mkInstructionRows_sorted db.next_cocktail_id c.instructions
      db.next_instruction_id 0).imp (fun hab => decide_eq_true hab))]
  exact mkInstructionRows_text db.next_cocktail_id c.instructions db.next_instruction_id 0

/-- The response document reproduces the ingredient lines verbatim. -/
theorem create_doc_ingredients (db : DB) (c : CocktailCreate) (h : WF db) :
    (create_cocktail db c).2.ingredients = c.ingredients.map inputIngredientRead := by
  obtain ⟨rows, hext, hcid, hmap, -⟩ := create_ci_rows db c h
  rw [create_cocktail_snd]
  show ((createS6 db c).cocktail_ingredients.filter
      (fun ci => ci.cocktail_id == db.next_cocktail_id)).map
      (ciRead (createS6 db c).ingredients) = c.ingredients.map inputIngredientRead
  rw [hext, List.filter_append]
  have hold : db.cocktail_ingredients.filter
      (fun ci => ci.cocktail_id == db.next_cocktail_id) = [] := by
    apply filter_eq_nil_of_none
    intro ci hci hbeq
    exact absurd ((beq_iff_eq.mp hbeq) ▸ h.2.2.1 ci hci) (Nat.lt_irrefl _)
  have hnew : rows.filter (fun ci => ci.cocktail_id == db.next_cocktail_id) = rows := by
    apply List.filter_eq_self.mpr
    intro ci hci
    exact beq_iff_eq.mpr (hcid ci hci)
  rw [hold, hnew, List.nil_append, hmap]

/-- The cocktail_garnishes rows one create call stores: one per input
occurrence, resolving to exactly the input garnish list. -/
theorem create_garnish_rows (db : DB) (c : CocktailCreate) (h : WF db) :
    ∃ rows, (createS6 db c).cocktail_garnishes = db.cocktail_garnishes ++ rows ∧
      (∀ l ∈ rows, l.cocktail_id = db.next_cocktail_id) ∧
      rows.length = (metaGarnish c).length ∧
      (rows.filterMap (fun l => (createS6 db c).garnishes.find?
          (fun g => g.id == l.garnish_id))).map (fun g => g.name) = metaGarnish c := by
  have w3 : WF (createS3 db c) := (WF_createS db c h).2.2.1
  have hgar3 : GarnishTableInv (createS3 db c) := w3.2.2.2.2.2.2.2.2
  obtain ⟨rows, hext, hcid, hlen, hmap⟩ :=
    addGarnishLinks_rows db.next_cocktail_id (metaGarnish c) (createS3 db c) hgar3
  have hext4 : (createS4 db c).cocktail_garnishes
      = (createS3 db c).cocktail_garnishes ++ rows := hext
  have hmap4 : (rows.filterMap (fun l => (createS4 db c).garnishes.find?
      (fun g => g.id == l.garnish_id))).map (fun g => g.name) = metaGarnish c := hmap
  have e3cg : (createS3 db c).cocktail_garnishes = db.cocktail_garnishes := by
    show (addInstructions (createS2 db c) db.next_cocktail_id 0
      c.instructions).cocktail_garnishes = _
    rw [addInstructions_eq]
    exact (addIngredientLines_frame db.next_cocktail_id c.ingredients
      (createS1 db c)).2.2.2.2.2.1
  obtain ⟨-, -, -, -, hS6gar, hS6cg⟩ := createS6_frames db c
  refine ⟨rows, ?_, hcid, hlen, ?_⟩
  · rw [hS6cg, hext4, e3cg]
  · rw [hS6gar]
    exact hmap4

/-- The cocktail_tags rows one create call stores: one per occurrence in
the tags list and then one per occurrence in the flavor_tags list, each
batch resolving to its input names with its loop's type. -/
theorem create_tag_links (db : DB) (c : CocktailCreate) (h : WF db) :
    ∃ rowsT rowsF,
      (createS6 db c).cocktail_tags = db.cocktail_tags ++ rowsT ++ rowsF ∧
      (∀ l ∈ rowsT, l.cocktail_id = db.next_cocktail_id) ∧
      (∀ l ∈ rowsF, l.cocktail_id = db.next_cocktail_id) ∧
      rowsT.length = (metaTags c).length ∧
      rowsF.length = (metaFlavorTags c).length ∧
      (rowsT.filterMap (fun l => (createS6 db c).tags.find?
          (fun t => t.id == l.tag_id))).map (fun t => (t.name, t.ty))
        = (metaTags c).map (fun n => (n, "tag")) ∧
      (rowsF.filterMap (fun l => (createS6 db c).tags.find?
          (fun t => t.id == l.tag_id))).map (fun t => (t.name, t.ty))
        = (metaFlavorTags c).map (fun n => (n, "flavor_tag")) := by
  have w4 : WF (createS4 db c) := (WF_createS db c h).2.2.2.1
  have htag4 : TagTableInv (createS4 db c) := w4.2.2.2.2.2.2.2.1
  have w5 : WF (createS5 db c) := (WF_createS db c h).2.2.2.2.1
  have htag5 : TagTableInv (createS5 db c) := w5.2.2.2.2.2.2.2.1
  obtain ⟨rowsT, hextT, hcidT, hlenT, hsomeT, hmapT⟩ :=
    addTagLinks_rows db.next_cocktail_id "tag" (metaTags c) (createS4 db c) htag4
  obtain ⟨rowsF, hextF, hcidF, hlenF, -, hmapF⟩ :=
    addTagLinks_rows db.next_cocktail_id "flavor_tag" (metaFlavorTags c) (createS5 db c) htag5
  have hextT' : (createS5 db c).cocktail_tags = (createS4 db c).cocktail_tags ++ rowsT := hextT
  have hextF' : (createS6 db c).cocktail_tags = (createS5 db c).cocktail_tags ++ rowsF := hextF
  have hmapT' : (rowsT.filterMap (fun l => (createS5 db c).tags.find?
      (fun t => t.id == l.tag_id))).map (fun t => (t.name, t.ty))
      = (metaTags c).map (fun n => (n, "tag")) := hmapT
  have hsomeT' : ∀ l ∈ rowsT, ((createS5 db c).tags.find?
      (fun t => t.id == l.tag_id)).isSome := hsomeT
  have hmapF' : (rowsF.filterMap (fun l => (createS6 db c).tags.find?
      (fun t => t.id == l.tag_id))).map (fun t => (t.name, t.ty))
      = (metaFlavorTags c).map (fun n => (n, "flavor_tag")) := hmapF
  have e4ct : (createS4 db c).cocktail_tags = db.cocktail_tags := by
    have e43 : (createS4 db c).cocktail_tags = (createS3 db c).cocktail_tags :=
      (addGarnishLinks_frame db.next_cocktail_id (metaGarnish c)
        (createS3 db c)).2.2.2.2.2.1
    have e32 : (createS3 db c).cocktail_tags = (createS2 db c).cocktail_tags := by
      show (addInstructions (createS2 db c) db.next_cocktail_id 0
        c.instructions).cocktail_tags = _
      rw [addInstructions_eq]
    have e21 : (createS2 db c).cocktail_tags = db.cocktail_tags :=
      (addIngredientLines_frame db.next_cocktail_id c.ingredients
        (createS1 db c)).2.2.2.2.1
    rw [e43, e32, e21]
  obtain ⟨-, -, tail, htags6⟩ :=
    addTagLinks_inv db.next_cocktail_id "flavor_tag" (metaFlavorTags c) (createS5 db c) htag5
  have htags6' : (createS6 db c).tags = (createS5 db c).tags ++ tail := htags6
  have hmapT6 : (rowsT.filterMap (fun l => (createS6 db c).tags.find?
      (fun t => t.id == l.tag_id))).map (fun t => (t.name, t.ty))
      = (metaTags c).map (fun n => (n, "tag")) := by
    rw [htags6', filterMap_find?_append (fun l => fun t => t.id == l.tag_id) tail rowsT
      (createS5 db c).tags hsomeT', hmapT']
  refine ⟨rowsT, rowsF, ?_, hcidT, hcidF, hlenT, hlenF, hmapT6, hmapF'⟩
  rw [hextF', hextT', e4ct]

/-- The two tag loops of the same call never merge: the Tag rows linked
for the new recipe, projected to (name, type) pairs, are the tags batch
followed by the flavor_tags batch. -/
theorem create_tag_pairs (db : DB) (c : CocktailCreate) (h : WF db) :
    (linkedTags (createS6 db c).cocktail_tags (createS6 db c).tags
        db.next_cocktail_id).map (fun t => (t.name, t.ty))
      = (metaTags c).map (fun n => (n, "tag"))
        ++ (metaFlavorTags c).map (fun n => (n, "flavor_tag")) := by
  obtain ⟨rowsT, rowsF, hext, hcidT, hcidF, -, -, hmapT, hmapF⟩ := create_tag_links db c h
  unfold linkedTags
  rw [hext, List.filter_append, List.filter_append]
  have hold : db.cocktail_tags.filter
      (fun l => l.cocktail_id == db.next_cocktail_id) = [] := by
    apply filter_eq_nil_of_none
    intro l hl hbeq
    exact absurd ((beq_iff_eq.mp hbeq) ▸ h.2.2.2.2.1 l hl) (Nat.lt_irrefl _)
  have hkeepT : rowsT.filter (fun l => l.cocktail_id == db.next_cocktail_id) = rowsT :=
    List.filter_eq_self.mpr (fun l hl => beq_iff_eq.mpr (hcidT l hl))
  have hkeepF : rowsF.filter (fun l => l.cocktail_id == db.next_cocktail_id) = rowsF :=
    List.filter_eq_self.mpr (fun l hl => beq_iff_eq.mpr (hcidF l hl))
  rw [hold, hkeepT, hkeepF, List.nil_append, List.filterMap_append, List.map_append,
    hmapT, hmapF]

/-- Filtering Tag rows by type and keeping names is computed by the
(name, type) pair projection. -/
theorem tag_filter_map_comm (k : String) :
    ∀ (l : List Tag),
      (l.filter (fun t => t.ty == k)).map (fun t => t.name)
        = ((l.map (fun t => (t.name, t.ty))).filter (fun q => q.2 == k)).map
            (fun q => q.1) := by
  intro l
  induction l with
  | nil => simp
  | cons t rest ih =>
    simp only [List.map_cons, List.filter_cons]
    cases hb : (t.ty == k) with
    | false => simpa [hb] using ih
    | true => simpa [hb] using ih

/-- Filtering a constant-type pair batch by a type keeps all of it or
none of it. -/
theorem pairs_filter_const (ty k : String) :
    ∀ (names : List String),
      (((names.map (fun n => (n, ty))).filter (fun q => q.2 == k)).map (fun q => q.1))
        = if ty = k then names else [] := by
  intro names
  induction names with
  | nil => cases h : decide (ty = k) <;> simp_all
  | cons n rest ih =>
    by_cases hk : ty = k
    · simp only [List.map_cons, List.filter_cons]
      rw [if_pos hk] at ih ⊢
      simpa [hk] using ih
    · simp only [List.map_cons, List.filter_cons]
      rw [if_neg hk] at ih ⊢
      have : (((n, ty) : String × String).2 == k) = false := by
        simpa using hk
      simpa [this] using ih

/-- The response document reproduces the garnish list verbatim
(duplicates included). -/
theorem create_doc_garnish (db : DB) (c : CocktailCreate) (h : WF db) :
    (create_cocktail db c).2.metadata.garnish = metaGarnish c := by
  obtain ⟨rows, hext, hcid, -, hmap⟩ := create_garnish_rows db c h
  rw [create_cocktail_snd]
  show (linkedGarnishes (createS6 db c).cocktail_garnishes (createS6 db c).garnishes
      db.next_cocktail_id).map (fun g => g.name) = metaGarnish c
  unfold linkedGarnishes
  rw [hext, List.filter_append]
  have hold : db.cocktail_garnishes.filter
      (fun l => l.cocktail_id == db.next_cocktail_id) = [] := by
    apply filter_eq_nil_of_none
    intro l hl hbeq
    exact absurd ((beq_iff_eq.mp hbeq) ▸ h.2.2.2.2.2.1 l hl) (Nat.lt_irrefl _)
  have hkeep : rows.filter (fun l => l.cocktail_id == db.next_cocktail_id) = rows :=
    List.filter_eq_self.mpr (fun l hl => beq_iff_eq.mpr (hcid l hl))
  rw [hold, hkeep, List.nil_append, hmap]

/-- The response document's tags view is exactly the input tags list and
its flavor_tags view exactly the input flavor_tags list. -/
theorem create_doc_tags (db : DB) (c : CocktailCreate) (h : WF db) :
    (create_cocktail db c).2.metadata.tags = metaTags c ∧
    (create_cocktail db c).2.metadata.flavor_tags = metaFlavorTags c := by
  have hpairs := create_tag_pairs db c h
  constructor
  · rw [create_cocktail_snd]
    show ((linkedTags (createS6 db c).cocktail_tags (createS6 db c).tags
        db.next_cocktail_id).filter (fun t => t.ty == "tag")).map (fun t => t.name)
        = metaTags c
    rw [tag_filter_map_comm "tag", hpairs, List.filter_append, List.map_append,
      pairs_filter_const "tag" "tag", pairs_filter_const "flavor_tag" "tag"]
    simp
  · rw [create_cocktail_snd]
    show ((linkedTags (createS6 db c).cocktail_tags (createS6 db c).tags
        db.next_cocktail_id).filter (fun t => t.ty == "flavor_tag")).map (fun t => t.name)
        = metaFlavorTags c
    rw [tag_filter_map_comm "flavor_tag", hpairs, List.filter_append, List.map_append,
      pairs_filter_const "tag" "flavor_tag", pairs_filter_const "flavor_tag" "flavor_tag"]
    simp

/-- Every name in the input tag lists is backed by a Tag row of the
matching kind in the final state. -/
theorem create_tag_provides (db : DB) (c : CocktailCreate) (h : WF db) :
    (∀ n ∈ metaTags c, ∃ t ∈ (createS6 db c).tags, t.name = n ∧ t.ty = "tag") ∧
    (∀ n ∈ metaFlavorTags c,
      ∃ t ∈ (createS6 db c).tags, t.name = n ∧ t.ty = "flavor_tag") := by
  have w4 : WF (createS4 db c) := (WF_createS db c h).2.2.2.1
  have htag4 : TagTableInv (createS4 db c) := w4.2.2.2.2.2.2.2.1
  have w5 : WF (createS5 db c) := (WF_createS db c h).2.2.2.2.1
  have htag5 : TagTableInv (createS5 db c) := w5.2.2.2.2.2.2.2.1
  obtain ⟨-, -, tail, htags6⟩ :=
    addTagLinks_inv db.next_cocktail_id "flavor_tag" (metaFlavorTags c) (createS5 db c) htag5
  have htags6' : (createS6 db c).tags = (createS5 db c).tags ++ tail := htags6
  constructor
  · intro n hn
    obtain ⟨t, ht, hname, hty⟩ :=
      addTagLinks_provides db.next_cocktail_id "tag" (metaTags c) (createS4 db c) htag4 n hn
    have ht5 : t ∈ (createS5 db c).tags := ht
    refine ⟨t, ?_, hname, hty⟩
    rw [htags6']
    exact List.mem_append_left tail ht5
  · intro n hn
    obtain ⟨t, ht, hname, hty⟩ :=
      addTagLinks_provides db.next_cocktail_id "flavor_tag" (metaFlavorTags c)
        (createS5 db c) htag5 n hn
    exact ⟨t, ht, hname, hty⟩

/-- In a list with pairwise-distinct keys, equal keys force equal
elements. -/
theorem nodup_key_inj {α κ : Type} (k : α → κ) :
    ∀ (l : List α), (l.map k).Nodup → ∀ a ∈ l, ∀ b ∈ l, k a = k b → a = b := by
  intro l
  induction l with
  | nil => simp
  | cons x t ih =>
    intro hnd a ha b hb hk
    simp only [List.map_cons, List.nodup_cons, List.mem_map] at hnd
    rcases List.mem_cons.mp ha with h1 | h1 <;> rcases List.mem_cons.mp hb with h2 | h2
    · rw [h1, h2]
    · exact absurd ⟨b, h2, (h1 ▸ hk).symm⟩ hnd.1
    · exact absurd ⟨a, h1, h2 ▸ hk⟩ hnd.1
    · exact ih hnd.2 a h1 b h2 hk

/-- One create call only appends to the ingredients table. -/
theorem create_ingredients_ext (db : DB) (c : CocktailCreate) (h : WF db) :
    ∃ tail, (create_cocktail db c).1.ingredients = db.ingredients ++ tail := by
  have hing1 : IngTableInv (createS1 db c) :=
    IngTableInv_congr rfl rfl h.2.2.2.2.2.2.1
  obtain ⟨-, -, tail, hext⟩ :=
    addIngredientLines_inv db.next_cocktail_id c.ingredients (createS1 db c) hing1
  have hext' : (createS2 db c).ingredients = db.ingredients ++ tail := hext
  obtain ⟨-, hS6ing, -, -, -, -⟩ := createS6_frames db c
  exact ⟨tail, by rw [create_cocktail_fst, hS6ing, hext']⟩

/-- One create call only appends to the garnishes table. -/
theorem create_garnishes_ext (db : DB) (c : CocktailCreate) (h : WF db) :
    ∃ tail, (create_cocktail db c).1.garnishes = db.garnishes ++ tail := by
  have w3 : WF (createS3 db c) := (WF_createS db c h).2.2.1
  obtain ⟨-, -, tail, hext⟩ := addGarnishLinks_inv db.next_cocktail_id (metaGarnish c)
    (createS3 db c) w3.2.2.2.2.2.2.2.2
  have hext4 : (createS4 db c).garnishes = (createS3 db c).garnishes ++ tail := hext
  have e32 : (createS3 db c).garnishes = (createS2 db c).garnishes := by
    show (addInstructions (createS2 db c) db.next_cocktail_id 0 c.instructions).garnishes = _
    rw [addInstructions_eq]
  have e21 : (createS2 db c).garnishes = db.garnishes :=
    (addIngredientLines_frame db.next_cocktail_id c.ingredients (createS1 db c)).2.2.2.1
  obtain ⟨-, -, -, -, hS6gar, -⟩ := createS6_frames db c
  exact ⟨tail, by rw [create_cocktail_fst, hS6gar, hext4, e32, e21]⟩

/-- One create call only appends to the tags table. -/
theorem create_tags_ext (db : DB) (c : CocktailCreate) (h : WF db) :
    ∃ tail, (create_cocktail db c).1.tags = db.tags ++ tail := by
  have w4 : WF (createS4 db c) := (WF_createS db c h).2.2.2.1
  have w5 : WF (createS5 db c) := (WF_createS db c h).2.2.2.2.1
  obtain ⟨-, -, tailT, hextT⟩ := addTagLinks_inv db.next_cocktail_id "tag" (metaTags c)
    (createS4 db c) w4.2.2.2.2.2.2.2.1
  obtain ⟨-, -, tailF, hextF⟩ := addTagLinks_inv db.next_cocktail_id "flavor_tag"
    (metaFlavorTags c) (createS5 db c) w5.2.2.2.2.2.2.2.1
  have hextT' : (createS5 db c).tags = (createS4 db c).tags ++ tailT := hextT
  have hextF' : (createS6 db c).tags = (createS5 db c).tags ++ tailF := hextF
  have e43 : (createS4 db c).tags = (createS3 db c).tags :=
    (addGarnishLinks_frame db.next_cocktail_id (metaGarnish c) (createS3 db c)).2.2.2.2.1
  have e32 : (createS3 db c).tags = (createS2 db c).tags := by
    show (addInstructions (createS2 db c) db.next_cocktail_id 0 c.instructions).tags = _
    rw [addInstructions_eq]
  have e21 : (createS2 db c).tags = db.tags :=
    (addIngredientLines_frame db.next_cocktail_id c.ingredients (createS1 db c)).2.2.1
  refine ⟨tailT ++ tailF, ?_⟩
  rw [create_cocktail_fst, hextF', hextT', e43, e32, e21, List.append_assoc]

/-- Any sequence of create calls keeps the database well-formed. -/
theorem WF_foldl_create :
    ∀ (cs : List CocktailCreate) (db : DB), WF db →
      WF (cs.foldl (fun d c => (create_cocktail d c).1) db) := by
  intro cs
  induction cs with
  | nil => intro db h; exact h
  | cons c rest ih =>
    intro db h
    exact ih ((create_cocktail db c).1) (create_WF db c h)

/-! ## Concrete inputs used by witnesses and counterexamples -/

/-- A representative valid creation request. -/
def sampleCreate : CocktailCreate :=
  { title := "Daiquiri"
    author := some "Ann"
    description := some "classic"
    ingredients :=
      [ { name := "Rum", quantity := some "2", unit := some "oz", notes := none }
      , { name := "Lime Juice", quantity := some "1", unit := some "oz", notes := none } ]
    instructions := ["Shake", "Strain"]
    metadata := some
      { difficulty := some "easy"
        glass_type := some "coupe"
        garnish := some ["Lime Wheel"]
        tags := some ["Classic"]
        flavor_tags := some ["Sour"]
        cover_image := some "img.png" } }

/-! ## The claims -/

/-- C1: Round-trip on create — for every valid RecipeInput document,
creating it and projecting the stored recipe (as create_cocktail does by
re-reading and serializing) reproduces the title, author, description,
the metadata scalar fields (difficulty, glass_type, cover_image) exactly,
and each ingredient line's quantity, unit and notes with the ingredient
identified by its name. -/
theorem C1_create_round_trip (db : DB) (c : CocktailCreate) (h : WF db) :
    (create_cocktail db c).2.title = c.title ∧
    (create_cocktail db c).2.author = c.author ∧
    (create_cocktail db c).2.description = c.description ∧
    (create_cocktail db c).2.metadata.difficulty = metaDifficulty c ∧
    (create_cocktail db c).2.metadata.glass_type = metaGlassType c ∧
    (create_cocktail db c).2.metadata.cover_image = metaCoverImage c ∧
    (create_cocktail db c).2.ingredients = c.ingredients.map inputIngredientRead :=
  ⟨rfl, rfl, rfl, rfl, rfl, rfl, create_doc_ingredients db c h⟩

/-- Witness for C1 at a concrete input on the fresh database. -/
theorem C1_create_round_trip_witness :
    WF emptyDB ∧
    ((create_cocktail emptyDB sampleCreate).2.title = sampleCreate.title ∧
     (create_cocktail emptyDB sampleCreate).2.author = sampleCreate.author ∧
     (create_cocktail emptyDB sampleCreate).2.description = sampleCreate.description ∧
     (create_cocktail emptyDB sampleCreate).2.metadata.difficulty = metaDifficulty sampleCreate ∧
     (create_cocktail emptyDB sampleCreate).2.metadata.glass_type = metaGlassType sampleCreate ∧
     (create_cocktail emptyDB sampleCreate).2.metadata.cover_image = metaCoverImage sampleCreate ∧
     (create_cocktail emptyDB sampleCreate).2.ingredients
       = sampleCreate.ingredients.map inputIngredientRead) :=
  ⟨WF_emptyDB, C1_create_round_trip emptyDB sampleCreate WF_emptyDB⟩

/-- C2: Step ordering round-trip — create assigns each step the 1-based
input position as its step number, and the projected document's
instructions list has exactly the input list's length and order (rows
sorted ascending by step number, mapped to their text). -/
theorem C2_step_ordering (db : DB) (c : CocktailCreate) (h : WF db) :
    ((create_cocktail db c).1.instructions.filter
        (fun i => i.cocktail_id == db.next_cocktail_id)).map (fun i => i.step_number)
      = List.range' 1 c.instructions.length ∧
    ((create_cocktail db c).1.instructions.filter
        (fun i => i.cocktail_id == db.next_cocktail_id)).map (fun i => i.instruction_text)
      = c.instructions ∧
    (create_cocktail db c).2.instructions = c.instructions := by
  have hrows := create_instruction_rows db c h
  refine ⟨?_, ?_, create_doc_instructions db c h⟩
  · rw [create_cocktail_fst, hrows]
    exact mkInstructionRows_steps db.next_cocktail_id c.instructions db.next_instruction_id 0
  · rw [create_cocktail_fst, hrows]
    exact mkInstructionRows_text db.next_cocktail_id c.instructions db.next_instruction_id 0

/-- Witness for C2 at a concrete two-step input (and, through the list
length, the zero- and one-step cases are instances of the same theorem). -/
theorem C2_step_ordering_witness :
    WF emptyDB ∧
    (((create_cocktail emptyDB sampleCreate).1.instructions.filter
        (fun i => i.cocktail_id == emptyDB.next_cocktail_id)).map (fun i => i.step_number)
      = List.range' 1 sampleCreate.instructions.length ∧
    ((create_cocktail emptyDB sampleCreate).1.instructions.filter
        (fun i => i.cocktail_id == emptyDB.next_cocktail_id)).map (fun i => i.instruction_text)
      = sampleCreate.instructions ∧
    (create_cocktail emptyDB sampleCreate).2.instructions = sampleCreate.instructions) :=
  ⟨WF_emptyDB, C2_step_ordering emptyDB sampleCreate WF_emptyDB⟩

/-- A one-ingredient, one-step request used for the atomicity analysis. -/
def c3Input : CocktailCreate :=
  { title := "Daiquiri"
    author := none
    description := none
    ingredients := [{ name := "Rum", quantity := some "2", unit := some "oz", notes := none }]
    instructions := ["Shake"]
    metadata := none }

/-- C3 counterexample: create_cocktail commits the Cocktail row on its
own (line 189) before any ingredient or step is written. At that commit a
reader already finds recipe 1 — not NotFound — yet its document is not
the final one: a partially-created recipe is observable, so the
all-or-nothing claim is false. -/
theorem C3_counterexample :
    (get_cocktail (create_cocktail_first_commit emptyDB c3Input) 1).toOption ≠ none ∧
    (get_cocktail (create_cocktail_first_commit emptyDB c3Input) 1).toOption
        ≠ some (create_cocktail emptyDB c3Input).2 ∧
    create_cocktail_first_commit emptyDB c3Input ≠ emptyDB ∧
    create_cocktail_first_commit emptyDB c3Input ≠ (create_cocktail emptyDB c3Input).1 := by
  decide

/-- C3 amended: create_cocktail is not one transaction — it commits the
Cocktail row first (and each new vocabulary row separately). Between that
first commit and the final one, a reader asking for the new id observes
the recipe with its scalar fields but empty ingredients, instructions,
garnishes and tags. -/
theorem C3_amended_first_commit_partial (db : DB) (c : CocktailCreate) (h : WF db) :
    get_cocktail (create_cocktail_first_commit db c) db.next_cocktail_id
      = Except.ok
          { id := db.next_cocktail_id
            title := c.title
            author := c.author
            description := c.description
            ingredients := []
            instructions := []
            metadata :=
              { difficulty := metaDifficulty c
                glass_type := metaGlassType c
                garnish := []
                tags := []
                flavor_tags := []
                cover_image := metaCoverImage c } } := by
  have hpre : db.cocktails.find? (fun x => x.id == db.next_cocktail_id) = none := by
    rw [List.find?_eq_none]
    intro r hr hbeq
    exact absurd ((beq_iff_eq.mp hbeq) ▸ h.2.1 r hr) (Nat.lt_irrefl _)
  have hfind : (create_cocktail_first_commit db c).cocktails.find?
      (fun x => x.id == db.next_cocktail_id) = some (insertCocktailRow db c).2 := by
    show (db.cocktails ++ [(insertCocktailRow db c).2]).find?
      (fun x => x.id == db.next_cocktail_id) = _
    rw [List.find?_append, hpre]
    simp [insertCocktailRow_snd]
  have hci : (create_cocktail_first_commit db c).cocktail_ingredients.filter
      (fun ci => ci.cocktail_id == (insertCocktailRow db c).2.id) = [] := by
    apply filter_eq_nil_of_none
    intro ci hmem hbeq
    exact absurd ((beq_iff_eq.mp hbeq) ▸ h.2.2.1 ci hmem) (Nat.lt_irrefl _)
  have hin : (create_cocktail_first_commit db c).instructions.filter
      (fun i => i.cocktail_id == (insertCocktailRow db c).2.id) = [] := by
    apply filter_eq_nil_of_none
    intro i hmem hbeq
    exact absurd ((beq_iff_eq.mp hbeq) ▸ h.2.2.2.1 i hmem) (Nat.lt_irrefl _)
  have htl : (create_cocktail_first_commit db c).cocktail_tags.filter
      (fun l => l.cocktail_id == (insertCocktailRow db c).2.id) = [] := by
    apply filter_eq_nil_of_none
    intro l hmem hbeq
    exact absurd ((beq_iff_eq.mp hbeq) ▸ h.2.2.2.2.1 l hmem) (Nat.lt_irrefl _)
  have hgl : (create_cocktail_first_commit db c).cocktail_garnishes.filter
      (fun l => l.cocktail_id == (insertCocktailRow db c).2.id) = [] := by
    apply filter_eq_nil_of_none
    intro l hmem hbeq
    exact absurd ((beq_iff_eq.mp hbeq) ▸ h.2.2.2.2.2.1 l hmem) (Nat.lt_irrefl _)
  unfold get_cocktail
  rw [hfind]
  show Except.ok (serialize_cocktail (create_cocktail_first_commit db c)
    (insertCocktailRow db c).2) = _
  congr 1
  unfold serialize_cocktail linkedTags linkedGarnishes
  rw [hci, hin, htl, hgl]
  simp [insertCocktailRow_snd]

/-- Witness for C3's amended statement at a concrete input. -/
theorem C3_amended_witness :
    WF emptyDB ∧
    get_cocktail (create_cocktail_first_commit emptyDB c3Input) emptyDB.next_cocktail_id
      = Except.ok
          { id := 1
            title := "Daiquiri"
            author := none
            description := none
            ingredients := []
            instructions := []
            metadata :=
              { difficulty := none
                glass_type := none
                garnish := []
                tags := []
                flavor_tags := []
                cover_image := none } } :=
  ⟨WF_emptyDB, C3_amended_first_commit_partial emptyDB c3Input WF_emptyDB⟩

/-- A request repeating the same garnish name and the same tag name. -/
def c4Input : CocktailCreate :=
  { title := "Mojito"
    author := none
    description := none
    ingredients := []
    instructions := []
    metadata := some
      { difficulty := none
        glass_type := none
        garnish := some ["Mint", "Mint"]
        tags := some ["Fresh", "Fresh"]
        flavor_tags := none
        cover_image := none } }

/-- C4 counterexample: with garnish ["Mint","Mint"] and tags
["Fresh","Fresh"], one create call stores a single Garnish row and a
single Tag row but TWO identical link rows to each: repeats are not
deduplicated before linking, falsifying the at-most-one-link-row claim. -/
theorem C4_counterexample :
    (create_cocktail emptyDB c4Input).1.garnishes = [{ id := 1, name := "Mint" }] ∧
    (create_cocktail emptyDB c4Input).1.cocktail_garnishes
      = [{ cocktail_id := 1, garnish_id := 1 }, { cocktail_id := 1, garnish_id := 1 }] ∧
    (create_cocktail emptyDB c4Input).1.tags = [{ id := 1, name := "Fresh", ty := "tag" }] ∧
    (create_cocktail emptyDB c4Input).1.cocktail_tags
      = [{ cocktail_id := 1, tag_id := 1 }, { cocktail_id := 1, tag_id := 1 }] := by
  decide

/-- C4 amended: repeats are NOT deduplicated — every occurrence of a
garnish, tag or flavor-tag name in the metadata lists appends its own
link row, so the new recipe's link-row counts equal the occurrence counts
(duplicate names yield duplicate link rows); only the vocabulary rows
themselves are at most one per name. -/
theorem C4_amended_no_dedup (db : DB) (c : CocktailCreate) (h : WF db) :
    ((create_cocktail db c).1.cocktail_garnishes.filter
        (fun l => l.cocktail_id == db.next_cocktail_id)).length
      = (metaGarnish c).length ∧
    ((create_cocktail db c).1.cocktail_tags.filter
        (fun l => l.cocktail_id == db.next_cocktail_id)).length
      = (metaTags c).length + (metaFlavorTags c).length := by
  obtain ⟨rows, hext, hcid, hlen, -⟩ := create_garnish_rows db c h
  obtain ⟨rowsT, rowsF, hextT, hcidT, hcidF, hlenT, hlenF, -, -⟩ := create_tag_links db c h
  constructor
  · rw [create_cocktail_fst, hext, List.filter_append]
    have hold : db.cocktail_garnishes.filter
        (fun l => l.cocktail_id == db.next_cocktail_id) = [] :=
      filter_eq_nil_of_none (fun l hl hbeq =>
        absurd ((beq_iff_eq.mp hbeq) ▸ h.2.2.2.2.2.1 l hl) (Nat.lt_irrefl _))
    have hkeep : rows.filter (fun l => l.cocktail_id == db.next_cocktail_id) = rows :=
      List.filter_eq_self.mpr (fun l hl => beq_iff_eq.mpr (hcid l hl))
    rw [hold, hkeep, List.nil_append, hlen]
  · rw [create_cocktail_fst, hextT, List.filter_append, List.filter_append]
    have hold : db.cocktail_tags.filter
        (fun l => l.cocktail_id == db.next_cocktail_id) = [] :=
      filter_eq_nil_of_none (fun l hl hbeq =>
        absurd ((beq_iff_eq.mp hbeq) ▸ h.2.2.2.2.1 l hl) (Nat.lt_irrefl _))
    have hkT : rowsT.filter (fun l => l.cocktail_id == db.next_cocktail_id) = rowsT :=
      List.filter_eq_self.mpr (fun l hl => beq_iff_eq.mpr (hcidT l hl))
    have hkF : rowsF.filter (fun l => l.cocktail_id == db.next_cocktail_id) = rowsF :=
      List.filter_eq_self.mpr (fun l hl => beq_iff_eq.mpr (hcidF l hl))
    rw [hold, hkT, hkF, List.nil_append, List.length_append, hlenT, hlenF]

/-- Witness for C4's amended statement: the duplicated names above yield
two garnish links and two tag links. -/
theorem C4_amended_witness :
    WF emptyDB ∧
    ((create_cocktail emptyDB c4Input).1.cocktail_garnishes.filter
        (fun l => l.cocktail_id == emptyDB.next_cocktail_id)).length
      = (metaGarnish c4Input).length ∧
    ((create_cocktail emptyDB c4Input).1.cocktail_tags.filter
        (fun l => l.cocktail_id == emptyDB.next_cocktail_id)).length
      = (metaTags c4Input).length + (metaFlavorTags c4Input).length :=
  ⟨WF_emptyDB, C4_amended_no_dedup emptyDB c4Input WF_emptyDB⟩

/-- A request using the same text as a plain tag and as a flavor tag. -/
def c5Input : CocktailCreate :=
  { title := "Sweet One"
    author := none
    description := none
    ingredients := []
    instructions := []
    metadata := some
      { difficulty := none
        glass_type := none
        garnish := none
        tags := some ["Sweet"]
        flavor_tags := some ["Sweet"]
        cover_image := none } }

/-- C5: Tag partition — the projected tags view is exactly the linked
rows of kind "tag" and the flavor_tags view exactly those of kind
"flavor_tag" (here: each equal to its input list); no backing row is in
both views; and when the same text is used as a plain tag and a flavor
tag, two distinct Tag entities back the two views. -/
theorem C5_tag_partition (db : DB) (c : CocktailCreate) (h : WF db) :
    (create_cocktail db c).2.metadata.tags = metaTags c ∧
    (create_cocktail db c).2.metadata.flavor_tags = metaFlavorTags c ∧
    (∀ t ∈ (linkedTags (create_cocktail db c).1.cocktail_tags
          (create_cocktail db c).1.tags db.next_cocktail_id).filter
          (fun t => t.ty == "tag"),
      t ∉ (linkedTags (create_cocktail db c).1.cocktail_tags
          (create_cocktail db c).1.tags db.next_cocktail_id).filter
          (fun t => t.ty == "flavor_tag")) ∧
    (∀ n, n ∈ metaTags c → n ∈ metaFlavorTags c →
      ∃ t1 t2, t1 ∈ (create_cocktail db c).1.tags ∧ t2 ∈ (create_cocktail db c).1.tags ∧
        t1 ≠ t2 ∧ t1.name = n ∧ t1.ty = "tag" ∧ t2.name = n ∧ t2.ty = "flavor_tag") := by
  obtain ⟨hdoc1, hdoc2⟩ := create_doc_tags db c h
  refine ⟨hdoc1, hdoc2, ?_, ?_⟩
  · intro t ht hmem
    have e1 : t.ty = "tag" := by simpa using (List.mem_filter.mp ht).2
    have e2 : t.ty = "flavor_tag" := by simpa using (List.mem_filter.mp hmem).2
    rw [e1] at e2
    exact absurd e2 (by decide)
  · intro n hn1 hn2
    obtain ⟨hp, hf⟩ := create_tag_provides db c h
    obtain ⟨t1, ht1, hname1, hty1⟩ := hp n hn1
    obtain ⟨t2, ht2, hname2, hty2⟩ := hf n hn2
    refine ⟨t1, t2, ?_, ?_, ?_, hname1, hty1, hname2, hty2⟩
    · rw [create_cocktail_fst]
      exact ht1
    · rw [create_cocktail_fst]
      exact ht2
    · intro heq
      rw [heq, hty2] at hty1
      exact absurd hty1 (by decide)

/-- Witness for C5: "Sweet" as plain tag and flavor tag appears in both
views, backed by the two distinct rows the theorem exhibits. -/
theorem C5_tag_partition_witness :
    WF emptyDB ∧
    (create_cocktail emptyDB c5Input).2.metadata.tags = ["Sweet"] ∧
    (create_cocktail emptyDB c5Input).2.metadata.flavor_tags = ["Sweet"] ∧
    (∃ t1 t2, t1 ∈ (create_cocktail emptyDB c5Input).1.tags ∧
      t2 ∈ (create_cocktail emptyDB c5Input).1.tags ∧
      t1 ≠ t2 ∧ t1.name = "Sweet" ∧ t1.ty = "tag" ∧
      t2.name = "Sweet" ∧ t2.ty = "flavor_tag") :=
  ⟨WF_emptyDB, (C5_tag_partition emptyDB c5Input WF_emptyDB).1,
    (C5_tag_partition emptyDB c5Input WF_emptyDB).2.1,
    (C5_tag_partition emptyDB c5Input WF_emptyDB).2.2.2 "Sweet" (by decide) (by decide)⟩

/-- Find-or-create lookups that succeed before a sequence of creates
still return the same row afterwards. -/
theorem foldl_create_find?_stable :
    ∀ (cs : List CocktailCreate) (db : DB), WF db → ∀ (name : String) (r : Ingredient),
      db.ingredients.find? (fun x => x.name == name) = some r →
      (cs.foldl (fun d c => (create_cocktail d c).1) db).ingredients.find?
        (fun x => x.name == name) = some r := by
  intro cs
  induction cs with
  | nil => intro db h name r hr; exact hr
  | cons c rest ih =>
    intro db h name r hr
    apply ih ((create_cocktail db c).1) (create_WF db c h)
    obtain ⟨tail, hext⟩ := create_ingredients_ext db c h
    rw [hext, find?_append_of_isSome tail (by rw [hr]; rfl), hr]

/-- Garnish lookups that succeed before a sequence of creates still
return the same row afterwards. -/
theorem foldl_create_find?_stable_garnish :
    ∀ (cs : List CocktailCreate) (db : DB), WF db → ∀ (name : String) (g : Garnish),
      db.garnishes.find? (fun x => x.name == name) = some g →
      (cs.foldl (fun d c => (create_cocktail d c).1) db).garnishes.find?
        (fun x => x.name == name) = some g := by
  intro cs
  induction cs with
  | nil => intro db h name g hg; exact hg
  | cons c rest ih =>
    intro db h name g hg
    apply ih ((create_cocktail db c).1) (create_WF db c h)
    obtain ⟨tail, hext⟩ := create_garnishes_ext db c h
    rw [hext, find?_append_of_isSome tail (by rw [hg]; rfl), hg]

/-- Tag lookups (by name and kind) that succeed before a sequence of
creates still return the same row afterwards. -/
theorem foldl_create_find?_stable_tag :
    ∀ (cs : List CocktailCreate) (db : DB), WF db → ∀ (name ty : String) (t : Tag),
      db.tags.find? (fun x => x.name == name && x.ty == ty) = some t →
      (cs.foldl (fun d c => (create_cocktail d c).1) db).tags.find?
        (fun x => x.name == name && x.ty == ty) = some t := by
  intro cs
  induction cs with
  | nil => intro db h name ty t ht; exact ht
  | cons c rest ih =>
    intro db h name ty t ht
    apply ih ((create_cocktail db c).1) (create_WF db c h)
    obtain ⟨tail, hext⟩ := create_tags_ext db c h
    rw [hext, find?_append_of_isSome tail (by rw [ht]; rfl), ht]

/-- C6: Vocabulary find-or-create idempotence — for each of the three
vocabulary kinds, resolving the same uniqueness key again (name for
Ingredient and Garnish, name plus kind for Tag) returns the same entity
and leaves the store unchanged; resolution never mutates existing rows
(each vocabulary table is append-only); a resolution that succeeded keeps
returning the same row across any sequence of later create calls, for
all three kinds; and after any sequence of creates the ingredient names
are still pairwise distinct. -/
theorem C6_vocabulary_idempotent (db : DB) (h : WF db) :
    (∀ name : String,
      findOrCreateIngredient (findOrCreateIngredient db name).1 name
        = ((findOrCreateIngredient db name).1, (findOrCreateIngredient db name).2)) ∧
    (∀ name : String,
      findOrCreateGarnish (findOrCreateGarnish db name).1 name
        = ((findOrCreateGarnish db name).1, (findOrCreateGarnish db name).2)) ∧
    (∀ name ty : String,
      findOrCreateTag (findOrCreateTag db name ty).1 name ty
        = ((findOrCreateTag db name ty).1, (findOrCreateTag db name ty).2)) ∧
    (∀ name : String,
      ∃ tail, (findOrCreateIngredient db name).1.ingredients = db.ingredients ++ tail) ∧
    (∀ name : String,
      ∃ tail, (findOrCreateGarnish db name).1.garnishes = db.garnishes ++ tail) ∧
    (∀ name ty : String,
      ∃ tail, (findOrCreateTag db name ty).1.tags = db.tags ++ tail) ∧
    (∀ (cs : List CocktailCreate) (name : String) (r : Ingredient),
      db.ingredients.find? (fun x => x.name == name) = some r →
      (cs.foldl (fun d c => (create_cocktail d c).1) db).ingredients.find?
        (fun x => x.name == name) = some r) ∧
    (∀ (cs : List CocktailCreate) (name : String) (g : Garnish),
      db.garnishes.find? (fun x => x.name == name) = some g →
      (cs.foldl (fun d c => (create_cocktail d c).1) db).garnishes.find?
        (fun x => x.name == name) = some g) ∧
    (∀ (cs : List CocktailCreate) (name ty : String) (t : Tag),
      db.tags.find? (fun x => x.name == name && x.ty == ty) = some t →
      (cs.foldl (fun d c => (create_cocktail d c).1) db).tags.find?
        (fun x => x.name == name && x.ty == ty) = some t) ∧
    (∀ cs : List CocktailCreate,
      (((cs.foldl (fun d c => (create_cocktail d c).1) db).ingredients.map
        (fun x => x.name)).Nodup)) :=
  ⟨fun name => findOrCreateIngredient_idem db name h.2.2.2.2.2.2.1,
   fun name => findOrCreateGarnish_idem db name h.2.2.2.2.2.2.2.2,
   fun name ty => findOrCreateTag_idem db name ty h.2.2.2.2.2.2.2.1,
   fun name => (findOrCreateIngredient_spec db name h.2.2.2.2.2.2.1).2.2.1,
   fun name => (findOrCreateGarnish_spec db name h.2.2.2.2.2.2.2.2).2.2.1,
   fun name ty => (findOrCreateTag_spec db name ty h.2.2.2.2.2.2.2.1).2.2.1,
   fun cs name r hr => foldl_create_find?_stable cs db h name r hr,
   fun cs name g hg => foldl_create_find?_stable_garnish cs db h name g hg,
   fun cs name ty t ht => foldl_create_find?_stable_tag cs db h name ty t ht,
   fun cs => (WF_foldl_create cs db h).2.2.2.2.2.2.1.2.1⟩

/-- Witness for C6: resolving "Rum" twice on the fresh store is
idempotent, and two creates that both use "Rum" leave unique ingredient
names. -/
theorem C6_vocabulary_idempotent_witness :
    WF emptyDB ∧
    findOrCreateIngredient (findOrCreateIngredient emptyDB "Rum").1 "Rum"
      = ((findOrCreateIngredient emptyDB "Rum").1,
         (findOrCreateIngredient emptyDB "Rum").2) ∧
    findOrCreateGarnish (findOrCreateGarnish emptyDB "Mint").1 "Mint"
      = ((findOrCreateGarnish emptyDB "Mint").1,
         (findOrCreateGarnish emptyDB "Mint").2) ∧
    findOrCreateTag (findOrCreateTag emptyDB "Sweet" "tag").1 "Sweet" "tag"
      = ((findOrCreateTag emptyDB "Sweet" "tag").1,
         (findOrCreateTag emptyDB "Sweet" "tag").2) ∧
    ((([sampleCreate, sampleCreate] : List CocktailCreate).foldl
        (fun d c => (create_cocktail d c).1) emptyDB).ingredients.map
        (fun x => x.name)).Nodup :=
  ⟨WF_emptyDB, (C6_vocabulary_idempotent emptyDB WF_emptyDB).1 "Rum",
    (C6_vocabulary_idempotent emptyDB WF_emptyDB).2.1 "Mint",
    (C6_vocabulary_idempotent emptyDB WF_emptyDB).2.2.1 "Sweet" "tag",
    (C6_vocabulary_idempotent emptyDB WF_emptyDB).2.2.2.2.2.2.2.2.2
      [sampleCreate, sampleCreate]⟩

/-- C7: NotFound behaviour — get_cocktail on an identity no stored recipe
carries returns NotFound (not an empty document); NotFound is the only
error the handler can return; and on an existing identity it returns the
projected document of that recipe. -/
theorem C7_get_cocktail_not_found (db : DB) (cocktail_id : Nat) :
    ((∀ c ∈ db.cocktails, ¬c.id = cocktail_id) →
      get_cocktail db cocktail_id = Except.error ApiError.notFound) ∧
    (∀ e, get_cocktail db cocktail_id = Except.error e → e = ApiError.notFound) ∧
    (∀ c ∈ db.cocktails, (db.cocktails.map (fun x => x.id)).Nodup →
      get_cocktail db c.id = Except.ok (serialize_cocktail db c)) := by
  refine ⟨?_, ?_, ?_⟩
  · intro hnone
    unfold get_cocktail
    rw [List.find?_eq_none.mpr (fun x hx hbeq => hnone x hx (beq_iff_eq.mp hbeq))]
  · intro e he
    cases e
    rfl
  · intro c hc hnd
    unfold get_cocktail
    rw [find?_key_of_nodup (fun x => x.id) db.cocktails c hnd hc]

/-- Witness for C7 on the fresh (empty) store at identity 5. -/
theorem C7_get_cocktail_not_found_witness :
    (∀ c ∈ emptyDB.cocktails, ¬c.id = 5) ∧
    get_cocktail emptyDB 5 = Except.error ApiError.notFound :=
  ⟨by simp [emptyDB], (C7_get_cocktail_not_found emptyDB 5).1 (by simp [emptyDB])⟩

/-- A raw request body whose title is present but empty. -/
def c8EmptyTitleRaw : RawCocktailCreate :=
  { title := some ""
    author := none
    description := none
    ingredients := some []
    instructions := some []
    metadata := none }

/-- A raw request body missing the title field. -/
def c8MissingTitleRaw : RawCocktailCreate :=
  { title := none
    author := none
    description := none
    ingredients := some []
    instructions := some []
    metadata := none }

/-- C8 counterexample: an EMPTY title is a perfectly valid str for the
pydantic schema, so the request is not rejected — the handler runs and a
Cocktail row with empty title is committed. The claim that an empty-title
input is rejected before any write is false. -/
theorem C8_counterexample :
    (validateCocktailCreate c8EmptyTitleRaw).toOption
      = some { title := ""
               author := none
               description := none
               ingredients := []
               instructions := []
               metadata := none } ∧
    (create_endpoint emptyDB c8EmptyTitleRaw).toOption.map
        (fun p => p.1.cocktails.map (fun r => r.title))
      = some [""] := by
  decide

/-- C8 amended: a document missing the required title field (likewise a
missing ingredients or instructions field) is rejected by schema
validation before the handler runs, so nothing is written; but a present
empty-string title passes validation unchanged and a recipe is created
with it. -/
theorem C8_amended_validation (db : DB) (r : RawCocktailCreate) :
    (r.title = none → create_endpoint db r = Except.error "field required: title") ∧
    (r.ingredients = none → r.title ≠ none →
      create_endpoint db r = Except.error "field required: ingredients") ∧
    (∀ c, validateCocktailCreate r = Except.ok c → r.title = some c.title) := by
  refine ⟨?_, ?_, ?_⟩
  · intro ht
    unfold create_endpoint validateCocktailCreate
    rw [ht]
  · intro hi ht
    cases hsome : r.title with
    | none => exact absurd hsome ht
    | some t =>
      unfold create_endpoint validateCocktailCreate
      rw [hsome, hi]
  · intro c hc
    unfold validateCocktailCreate at hc
    cases ht : r.title with
    | none =>
      rw [ht] at hc
      exact absurd hc (by simp)
    | some t =>
      rw [ht] at hc
      cases hi : r.ingredients with
      | none =>
        rw [hi] at hc
        exact absurd hc (by simp)
      | some rawIngs =>
        rw [hi] at hc
        cases hs : r.instructions with
        | none =>
          rw [hs] at hc
          exact absurd hc (by simp)
        | some instrs =>
          rw [hs] at hc
          have hc2 : (match rawIngs.mapM validateIngredient with
              | Except.error e => (Except.error e : Except String CocktailCreate)
              | Except.ok ings =>
                Except.ok { title := t, author := r.author, description := r.description,
                            ingredients := ings, instructions := instrs,
                            metadata := r.metadata })
              = Except.ok c := hc
          cases hm : rawIngs.mapM validateIngredient with
          | error e =>
            rw [hm] at hc2
            exact absurd hc2 (by simp)
          | ok ings =>
            rw [hm] at hc2
            have hc3 : Except.ok ({ title := t,
                                    author := r.author,
                                    description := r.description,
                                    ingredients := ings,
                                    instructions := instrs,
                                    metadata := r.metadata } : CocktailCreate)
                = Except.ok c := hc2
            injection hc3 with hrec
            rw [← hrec]

/-- Witness for C8's amended statement: the missing-title body is turned
away before the handler, while the empty-title body validates. -/
theorem C8_amended_validation_witness :
    c8MissingTitleRaw.title = none ∧
    create_endpoint emptyDB c8MissingTitleRaw = Except.error "field required: title" ∧
    validateCocktailCreate c8EmptyTitleRaw
      = Except.ok { title := ""
                    author := none
                    description := none
                    ingredients := []
                    instructions := []
                    metadata := none } :=
  ⟨rfl, (C8_amended_validation emptyDB c8MissingTitleRaw).1 rfl, rfl⟩

/-- A request that lists the same ingredient name twice with different
measurements. -/
def c9Input : CocktailCreate :=
  { title := "Mojito"
    author := none
    description := none
    ingredients :=
      [ { name := "Mint", quantity := some "6", unit := some "leaves", notes := none }
      , { name := "Mint", quantity := some "1", unit := some "sprig", notes := some "top" } ]
    instructions := []
    metadata := none }

/-- C9: Duplicate ingredient lines — one create call stores one
CocktailIngredient row per input line (each with its own quantity, unit
and notes), lines whose resolved ingredient name coincides share one
ingredient_id, and the ingredients table never holds two rows with the
same name. -/
theorem C9_duplicate_ingredient_lines (db : DB) (c : CocktailCreate) (h : WF db) :
    ∃ rows, (create_cocktail db c).1.cocktail_ingredients
        = db.cocktail_ingredients ++ rows ∧
      rows.length = c.ingredients.length ∧
      rows.map (fun r => (r.quantity, r.unit, r.notes))
        = c.ingredients.map (fun i => (i.quantity, i.unit, i.notes)) ∧
      (∀ r1 ∈ rows, ∀ r2 ∈ rows,
        (ciRead (create_cocktail db c).1.ingredients r1).name
            = (ciRead (create_cocktail db c).1.ingredients r2).name →
          r1.ingredient_id = r2.ingredient_id) ∧
      ((create_cocktail db c).1.ingredients.map (fun x => x.name)).Nodup := by
  obtain ⟨rows, hext, hcid, hmap, hsome⟩ := create_ci_rows db c h
  have hnd : ((createS6 db c).ingredients.map (fun x => x.name)).Nodup :=
    ((WF_createS db c h).2.2.2.2.2).2.2.2.2.2.2.1.2.1
  refine ⟨rows, ?_, ?_, ?_, ?_, hnd⟩
  · rw [create_cocktail_fst]
    exact hext
  · have := congrArg List.length hmap
    simpa using this
  · have hproj : (rows.map (ciRead (createS6 db c).ingredients)).map
        (fun q => (q.quantity, q.unit, q.notes))
        = (c.ingredients.map inputIngredientRead).map
          (fun q => (q.quantity, q.unit, q.notes)) := by
      rw [hmap]
    simpa [List.map_map, Function.comp, ciRead, inputIngredientRead] using hproj
  · intro r1 h1 r2 h2 hname
    obtain ⟨a1, ha1⟩ := Option.isSome_iff_exists.mp (hsome r1 h1)
    obtain ⟨a2, ha2⟩ := Option.isSome_iff_exists.mp (hsome r2 h2)
    have m1 : a1 ∈ (createS6 db c).ingredients := List.mem_of_find?_eq_some ha1
    have m2 : a2 ∈ (createS6 db c).ingredients := List.mem_of_find?_eq_some ha2
    have k1 : a1.id = r1.ingredient_id := by
      have := List.find?_some ha1
      simpa using this
    have k2 : a2.id = r2.ingredient_id := by
      have := List.find?_some ha2
      simpa using this
    have n1 : (ciRead (createS6 db c).ingredients r1).name = a1.name := by
      unfold ciRead ingredientNameOf
      rw [ha1]
      rfl
    have n2 : (ciRead (createS6 db c).ingredients r2).name = a2.name := by
      unfold ciRead ingredientNameOf
      rw [ha2]
      rfl
    have hname' : (ciRead (createS6 db c).ingredients r1).name
        = (ciRead (createS6 db c).ingredients r2).name := hname
    have hnames : a1.name = a2.name := by
      rw [← n1, ← n2]
      exact hname'
    have haa : a1 = a2 :=
      nodup_key_inj (fun x => x.name) (createS6 db c).ingredients hnd a1 m1 a2 m2 hnames
    rw [← k1, ← k2, haa]

/-- Witness for C9 at a request repeating "Mint" in two lines. -/
theorem C9_duplicate_ingredient_lines_witness :
    WF emptyDB ∧
    ∃ rows, (create_cocktail emptyDB c9Input).1.cocktail_ingredients
        = emptyDB.cocktail_ingredients ++ rows ∧
      rows.length = c9Input.ingredients.length ∧
      rows.map (fun r => (r.quantity, r.unit, r.notes))
        = c9Input.ingredients.map (fun i => (i.quantity, i.unit, i.notes)) ∧
      (∀ r1 ∈ rows, ∀ r2 ∈ rows,
        (ciRead (create_cocktail emptyDB c9Input).1.ingredients r1).name
            = (ciRead (create_cocktail emptyDB c9Input).1.ingredients r2).name →
          r1.ingredient_id = r2.ingredient_id) ∧
      ((create_cocktail emptyDB c9Input).1.ingredients.map (fun x => x.name)).Nodup :=
  ⟨WF_emptyDB, C9_duplicate_ingredient_lines emptyDB c9Input WF_emptyDB⟩

/-- C10: Projection consistency across read paths — get_cocktails is the
serialization of every stored row in storage order, and for every stored
recipe, get_cocktail at its identity returns exactly the document
get_cocktails yields at that recipe's position: both read paths apply the
same projection to the same rows. -/
theorem C10_read_paths_agree (db : DB) :
    get_cocktails db = db.cocktails.map (serialize_cocktail db) ∧
    (∀ i (hi : i < db.cocktails.length), (db.cocktails.map (fun x => x.id)).Nodup →
      get_cocktail db (db.cocktails.get ⟨i, hi⟩).id
        = Except.ok ((get_cocktails db).get
            ⟨i, by simpa [get_cocktails] using hi⟩)) := by
  refine ⟨rfl, ?_⟩
  intro i hi hnd
  have hmem : db.cocktails.get ⟨i, hi⟩ ∈ db.cocktails := List.get_mem db.cocktails i hi
  unfold get_cocktail
  rw [find?_key_of_nodup (fun x => x.id) db.cocktails _ hnd hmem]
  show Except.ok (serialize_cocktail db (db.cocktails.get ⟨i, hi⟩)) = _
  congr 1
  show _ = (db.cocktails.map (serialize_cocktail db)).get _
  rw [List.get_eq_getElem, List.get_eq_getElem, List.getElem_map]

/-- Witness for C10 on the one-recipe store created from the sample
input. -/
theorem C10_read_paths_agree_witness :
    (0 < (create_cocktail emptyDB sampleCreate).1.cocktails.length ∧
      (((create_cocktail emptyDB sampleCreate).1.cocktails.map (fun x => x.id)).Nodup)) ∧
    get_cocktail (create_cocktail emptyDB sampleCreate).1
        (((create_cocktail emptyDB sampleCreate).1.cocktails.get ⟨0, by decide⟩).id)
      = Except.ok ((get_cocktails (create_cocktail emptyDB sampleCreate).1).get
          ⟨0, by decide⟩) :=
  ⟨⟨by decide, by decide⟩,
    (C10_read_paths_agree (create_cocktail emptyDB sampleCreate).1).2 0 (by decide)
      (by decide)⟩

end CocktailApi
